import Mathlib

/-!
Verification of the chess board / move-generation core in `src/board.ts`.

The TypeScript source is shallowly embedded: JavaScript numbers that are used
as array indices are modelled as `Int` (positions may be built transiently out
of range), JavaScript array reads out of range yield the distinguished value
`undefined`, reads of an element of `undefined` (e.g. `grid[-1][0]`) throw a
`TypeError`, and thrown exceptions are modelled by `Option`/result types.
-/

set_option maxHeartbeats 1000000

namespace Chess

/-- The two piece colors (`'black' | 'white'` in the source). -/
inductive Color : Type
  | black
  | white
deriving DecidableEq

/-- The six piece kinds (`Piece['type']` in the source). -/
inductive PieceKind : Type
  | pawn
  | rook
  | knight
  | bishop
  | queen
  | king
deriving DecidableEq

/--
A piece entity.  In JavaScript every `new Pawn(...)` is a fresh object and the
grid stores object references compared with `===`; the embedding gives every
created piece a distinct `id`, so value equality of `Piece` coincides with
reference equality of the source objects.
-/
structure Piece : Type where
  id : Nat
  kind : PieceKind
  color : Color
deriving DecidableEq

/-- `class Position`: 0-indexed row and column.  The source performs unchecked
arithmetic on these (`addOffset`), so they are modelled as integers. -/
structure Position : Type where
  row : Int
  column : Int
deriving DecidableEq

/-- `COLUMNS = ['a', 'b', 'c', 'd', 'e', 'f', 'g', 'h']`. -/
def COLUMNS : List Char := ['a', 'b', 'c', 'd', 'e', 'f', 'g', 'h']

/-- `ROWS = [8, 7, 6, 5, 4, 3, 2, 1]`. -/
def ROWS : List Int := [8, 7, 6, 5, 4, 3, 2, 1]

/-- JavaScript `Array.prototype.indexOf`: index of the first occurrence, or
`-1` when the element is absent. -/
def jsIndexOfAux {α : Type} [DecidableEq α] : List α → α → Int
  | [], _ => -1
  | b :: rest, a =>
    if a = b then 0
    else
      let r := jsIndexOfAux rest a
      if r = -1 then -1 else r + 1

/-- `indexOf` applied to a possibly-`undefined` argument (indexing a string out
of range yields `undefined`, which is never an element of the arrays used
here, so `indexOf` answers `-1`). -/
def jsIndexOf {α : Type} [DecidableEq α] (l : List α) : Option α → Int
  | none => -1
  | some a => jsIndexOfAux l a

/-- JavaScript `Number(...)` applied to a one-character string (or to
`undefined` when the string index was out of range).  A digit character
converts to its value; `Number(undefined)` and every non-numeric character
give `NaN`, modelled as `none` (whitespace characters actually convert to `0`,
which like `NaN` is not an element of `ROWS`, so the distinction is
unobservable through `ROWS.indexOf`). -/
def jsNumber : Option Char → Option Int
  | none => none
  | some c =>
    if 48 ≤ c.toNat ∧ c.toNat ≤ 57 then some ((c.toNat : Int) - 48)
    else none

/-- `Position.fromString`: `column = COLUMNS.indexOf(position[0])`,
`row = ROWS.indexOf(Number(position[1]))`.  Note that the source performs no
validation: absent elements simply make `indexOf` answer `-1`. -/
def Position.fromString (s : List Char) : Position :=
  { row := jsIndexOf ROWS (jsNumber (s.get? 1)),
    column := jsIndexOf COLUMNS (s.get? 0) }

/-- The characters produced by interpolating `undefined` into a template
string. -/
def undefinedChars : List Char := ['u', 'n', 'd', 'e', 'f', 'i', 'n', 'e', 'd']

/-- Interpolation of `COLUMNS[i]` in a template string: the letter when the
index is in range, the text `undefined` otherwise. -/
def columnChars (i : Int) : List Char :=
  if 0 ≤ i ∧ i < 8 then [COLUMNS.getD i.toNat 'a'] else undefinedChars

/-- Interpolation of `ROWS[i]` (a one-digit number) in a template string. -/
def rowChars (i : Int) : List Char :=
  if 0 ≤ i ∧ i < 8 then [Char.ofNat (48 + (ROWS.getD i.toNat 0).toNat)]
  else undefinedChars

/-- `Position.toString`: the template string `${COLUMNS[this.column]}${ROWS[this.row]}`. -/
def Position.toString (p : Position) : List Char :=
  columnChars p.column ++ rowChars p.row

/-- `Position.addOffset`: unchecked coordinate arithmetic. -/
def Position.addOffset (p : Position) (rowOffset columnOffset : Int) : Position :=
  { row := p.row + rowOffset, column := p.column + columnOffset }

/-- `Position.isOnBoard`: both coordinates in `[0, 7]`. -/
def Position.isOnBoard (p : Position) : Prop :=
  0 ≤ p.row ∧ p.row ≤ 7 ∧ 0 ≤ p.column ∧ p.column ≤ 7

instance (p : Position) : Decidable p.isOnBoard := by
  unfold Position.isOnBoard; infer_instance

/-- The JavaScript value stored in (or read back from) a grid cell:
a piece reference, `null` (an empty square), or `undefined` (reading an array
index that was never assigned). -/
inductive JsVal : Type
  | undef
  | null
  | piece (p : Piece)
deriving DecidableEq

/-- `class Board`: owns `grid: (Piece | null)[][]`.  Rows are modelled as
lists because JavaScript arrays can grow when assigned past their end. -/
structure Board : Type where
  grid : List (List JsVal)
deriving DecidableEq

/-- Reading `row[i]` of a JavaScript array: the element when `i` is an index
in range, `undefined` otherwise. -/
def jsGetRow (l : List JsVal) (i : Int) : JsVal :=
  if 0 ≤ i ∧ i < l.length then l.getD i.toNat JsVal.undef else JsVal.undef

/-- Reading `grid[r][c]`, assuming the row exists (callers check the row
bound first, because `grid[r]` being `undefined` makes the column read throw). -/
def cellAt (g : List (List JsVal)) (r c : Int) : JsVal :=
  if 0 ≤ r ∧ r < g.length then jsGetRow (g.getD r.toNat []) c else JsVal.undef

/-- `Board.getPieceAt`: `return this.grid[position.row][position.column]`.
When `position.row` is not an index of `grid`, `grid[position.row]` is
`undefined` and the column access throws a `TypeError` (modelled as `none`);
otherwise the read yields the cell's value (which is `undefined`, not an
error, when only the column is out of range). -/
def Board.getPieceAt (b : Board) (pos : Position) : Option JsVal :=
  if 0 ≤ pos.row ∧ pos.row < b.grid.length then
    some (jsGetRow (b.grid.getD pos.row.toNat []) pos.column)
  else none

/-- Assigning `row[i] = v` in JavaScript: in range it replaces the element;
past the end it extends the array (holes read back as `undefined`); a negative
index becomes a non-index property, invisible to any array-index read, so it
is modelled as leaving the indexed cells unchanged. -/
def setRow (l : List JsVal) (i : Int) (v : JsVal) : List JsVal :=
  if i < 0 then l
  else if i.toNat < l.length then l.set i.toNat v
  else l ++ List.replicate (i.toNat - l.length) JsVal.undef ++ [v]

/-- Assigning `grid[r][c] = v`, assuming the row exists (callers establish the
row bound; an out-of-range row would throw before any column assignment). -/
def setCell (g : List (List JsVal)) (r c : Int) (v : JsVal) : List (List JsVal) :=
  if 0 ≤ r ∧ r < g.length then g.set r.toNat (setRow (g.getD r.toNat []) c v)
  else g

/-- Index of the first cell of a row holding this piece reference
(`row.indexOf(piece)` restricted to the cells actually visited by the
row-major search of `Piece.getPosition`). -/
def findCol (p : Piece) : List JsVal → Option Nat
  | [] => none
  | v :: rest =>
    if v = JsVal.piece p then some 0 else (findCol p rest).map (· + 1)

def getPositionAux (p : Piece) : List (List JsVal) → Nat → Option Position
  | [], _ => none
  | row :: rest, r =>
    match findCol p row with
    | some c => some { row := (r : Int), column := (c : Int) }
    | none => getPositionAux p rest (r + 1)

/-- `Piece.getPosition`: scan the grid in row-major order and return the
coordinates of the first cell whose occupant is reference-identical to this
piece; `none` models the thrown `Error('Piece not found on board.')`. -/
def Piece.getPosition (b : Board) (p : Piece) : Option Position :=
  getPositionAux p b.grid 0

/-- Outcome of `Board.movePiece`. -/
inductive MoveResult : Type
  | ok (b : Board)
  | notFound
  | fault (b : Board)
deriving DecidableEq

/-- `Board.movePiece`: locate the piece (throwing `PieceNotFound` when the
scan fails, before any mutation), null out the origin cell, then assign the
piece into the destination cell.  When the destination row is not an index of
the grid, the destination assignment throws a `TypeError` *after* the origin
has already been cleared (`fault` carries the half-mutated grid). -/
def Board.movePiece (b : Board) (p : Piece) (pos : Position) : MoveResult :=
  match Piece.getPosition b p with
  | none => MoveResult.notFound
  | some cur =>
    let g1 := setCell b.grid cur.row cur.column JsVal.null
    if 0 ≤ pos.row ∧ pos.row < g1.length then
      MoveResult.ok { grid := setCell g1 pos.row pos.column (JsVal.piece p) }
    else
      MoveResult.fault { grid := g1 }

/-- `pieceOrder = ['rook', 'knight', 'bishop', 'queen', 'king', 'bishop', 'knight', 'rook']`. -/
def pieceOrder : List PieceKind :=
  [PieceKind.rook, PieceKind.knight, PieceKind.bishop, PieceKind.queen,
   PieceKind.king, PieceKind.bishop, PieceKind.knight, PieceKind.rook]

/-- An all-`null` row, as produced by `Array(8).fill(null)`. -/
def emptyRow : List JsVal := List.replicate 8 JsVal.null

/-- The grid produced by `Board.initialize`.  `createPiece` returns a fresh
object on every call, so every cell receives a distinct entity; the `id`
numbers follow the source's creation order (the pawn loop creates a black and
a white pawn per column, then the back-rank loop creates a black and a white
piece per column). -/
def initialGrid : List (List JsVal) :=
  [(List.range 8).map (fun i =>
      JsVal.piece { id := 16 + 2 * i, kind := pieceOrder.getD i PieceKind.rook,
                    color := Color.black }),
   (List.range 8).map (fun i =>
      JsVal.piece { id := 2 * i, kind := PieceKind.pawn, color := Color.black }),
   emptyRow, emptyRow, emptyRow, emptyRow,
   (List.range 8).map (fun i =>
      JsVal.piece { id := 2 * i + 1, kind := PieceKind.pawn, color := Color.white }),
   (List.range 8).map (fun i =>
      JsVal.piece { id := 17 + 2 * i, kind := pieceOrder.getD i PieceKind.rook,
                    color := Color.white })]

/-- The board after `new Board()` (the constructor calls `initialize`). -/
def initialBoard : Board := { grid := initialGrid }

/-- A grid in the shape every board reachable through the public interface
with on-board destinations has: 8 rows of 8 cells, none of them `undefined`. -/
def WellFormed (b : Board) : Prop :=
  b.grid.length = 8 ∧
    ∀ row ∈ b.grid, row.length = 8 ∧ ∀ v ∈ row, v ≠ JsVal.undef

instance (b : Board) : Decidable (WellFormed b) := by
  unfold WellFormed; infer_instance

/-- One direction of `Piece.getAvaiableSquaresInDirections` (the source's
`while (otherPiece === null)` loop).  Stepping from the piece's position by
the offset: an off-board square stops the direction; an empty square
(`null`) is pushed and, when `loop` holds, scanning continues; an
occupied square is pushed exactly when the occupant's color differs and
always stops the direction; a cell reading `undefined` fails the `=== null`
test after being pushed, also stopping.  `none` models the `TypeError`
thrown when a row of the grid is missing (impossible on a well-formed
board, since the square was checked to be on the board).  The fuel `8`
bounds the iteration count: from an on-board start with a nonzero offset the
loop runs at most 8 times before leaving the board. -/
def scanDir (b : Board) (self : Piece) (d : Int × Int) (loop : Bool) :
    Nat → Position → Option (List Position)
  | 0, _ => some []
  | fuel + 1, s =>
    let s' := s.addOffset d.1 d.2
    if s'.isOnBoard then
      match b.getPieceAt s' with
      | none => none
      | some JsVal.null =>
        if loop then (scanDir b self d loop fuel s').map (s' :: ·)
        else some [s']
      | some (JsVal.piece q) =>
        some (if q.color ≠ self.color then [s'] else [])
      | some JsVal.undef => some [s']
    else some []

/-- `Piece.getAvaiableSquaresInDirections` (sic): for each direction the
piece's position is recomputed (`this.getPosition(board)` inside the loop,
throwing `PieceNotFound` when the piece is absent) and the squares of each
direction are pushed in order. -/
def getAvaiableSquaresInDirections (b : Board) (self : Piece) :
    List (Int × Int) → Bool → Option (List Position)
  | [], _ => some []
  | d :: rest, loop =>
    match Piece.getPosition b self with
    | none => none
    | some start =>
      match scanDir b self d loop 8 start with
      | none => none
      | some l =>
        (getAvaiableSquaresInDirections b self rest loop).map (l ++ ·)

/-- `Rook.availableSquares` directions. -/
def rookDirections : List (Int × Int) := [(1, 0), (-1, 0), (0, 1), (0, -1)]

/-- `Knight.availableSquares` directions (`loop = false`). -/
def knightDirections : List (Int × Int) :=
  [(1, 2), (1, -2), (-1, 2), (-1, -2), (2, 1), (2, -1), (-2, 1), (-2, -1)]

/-- `Bishop.availableSquares` directions. -/
def bishopDirections : List (Int × Int) := [(1, 1), (-1, 1), (1, -1), (-1, -1)]

/-- `Queen.availableSquares` / `King.availableSquares` directions. -/
def queenDirections : List (Int × Int) :=
  [(1, 0), (-1, 0), (0, 1), (0, -1), (1, 1), (-1, 1), (1, -1), (-1, -1)]

/-- The test `otherPiece && otherPiece.color !== this.color` of the pawn's
diagonal captures: `null` and `undefined` are falsy. -/
def capturable (self : Piece) : JsVal → Bool
  | JsVal.piece q => decide (q.color ≠ self.color)
  | _ => false

/-- The pawn's direction of movement (`this.color === 'white' ? -1 : 1`):
white pawns move up the board (row index decreases), black pawns down. -/
def pawnDir (self : Piece) : Int :=
  if self.color = Color.white then -1 else 1

/-- The starting-row test
`this.color == 'white' && position.row == WHITE_PAWN_ROW || this.color == 'black' && position.row == BLACK_PAWN_ROW`. -/
def pawnAtStart (self : Piece) (pos : Position) : Bool :=
  (self.color = Color.white && pos.row == 6)
    || (self.color = Color.black && pos.row == 1)

/-- The forward moves of `Pawn.availableSquares`: one square forward when
that square reads `null`, and additionally two squares forward from the
starting row when that square also reads `null` (the second lookup throws,
`none`, when its row is off the grid). -/
def pawnForward (b : Board) (self : Piece) (pos : Position) (v1 : JsVal) :
    Option (List Position) :=
  if v1 = JsVal.null then
    if pawnAtStart self pos then
      match b.getPieceAt (pos.addOffset (2 * pawnDir self) 0) with
      | none => none
      | some v2 =>
        some (if v2 = JsVal.null
          then [pos.addOffset (pawnDir self) 0,
                pos.addOffset (2 * pawnDir self) 0]
          else [pos.addOffset (pawnDir self) 0])
    else some [pos.addOffset (pawnDir self) 0]
  else some []

/-- The diagonal-capture part of `Pawn.availableSquares`: each forward
diagonal is appended when it holds an opposite-color piece (lookups in
source order, left then right; a lookup whose row is off the grid throws). -/
def pawnDiagonals (b : Board) (self : Piece) (pos : Position)
    (fwds : List Position) : Option (List Position) :=
  match b.getPieceAt (pos.addOffset (pawnDir self) (-1)) with
  | none => none
  | some lv =>
    match b.getPieceAt (pos.addOffset (pawnDir self) 1) with
    | none => none
    | some rv =>
      some (fwds
        ++ (if capturable self lv then [pos.addOffset (pawnDir self) (-1)]
            else [])
        ++ (if capturable self rv then [pos.addOffset (pawnDir self) 1]
            else []))

/-- `Pawn.availableSquares`, given the pawn's current position.  Lookups are
performed in source order (one forward, conditionally two forward, left
diagonal, right diagonal); any lookup whose row is off the grid throws
(`none`).  Off-board *columns* merely read `undefined`, which fails both the
`=== null` emptiness test and the truthiness test, so those squares are
silently skipped. -/
def pawnAvailableSquares (b : Board) (self : Piece) (pos : Position) :
    Option (List Position) :=
  match b.getPieceAt (pos.addOffset (pawnDir self) 0) with
  | none => none
  | some v1 =>
    match pawnForward b self pos v1 with
    | none => none
    | some fwds => pawnDiagonals b self pos fwds

/-- `availableSquares` dispatched on the piece's kind (the source's virtual
call).  `none` models a thrown exception (`PieceNotFound` from the position
scan, or the pawn's unguarded forward lookup leaving the grid). -/
def availableSquares (b : Board) (p : Piece) : Option (List Position) :=
  match p.kind with
  | PieceKind.pawn =>
    match Piece.getPosition b p with
    | none => none
    | some pos => pawnAvailableSquares b p pos
  | PieceKind.rook => getAvaiableSquaresInDirections b p rookDirections true
  | PieceKind.knight => getAvaiableSquaresInDirections b p knightDirections false
  | PieceKind.bishop => getAvaiableSquaresInDirections b p bishopDirections true
  | PieceKind.queen => getAvaiableSquaresInDirections b p queenDirections true
  | PieceKind.king => getAvaiableSquaresInDirections b p queenDirections false

/-- The square holds no piece (reads JavaScript `null`). -/
def squareEmpty (b : Board) (s : Position) : Prop :=
  b.getPieceAt s = some JsVal.null

instance (b : Board) (s : Position) : Decidable (squareEmpty b s) := by
  unfold squareEmpty; infer_instance

/-- The square holds a piece of the opposite color. -/
def squareEnemy (b : Board) (self : Piece) (s : Position) : Prop :=
  ∃ q, b.getPieceAt s = some (JsVal.piece q) ∧ q.color ≠ self.color

instance (b : Board) (self : Piece) (s : Position) :
    Decidable (squareEnemy b self s) := by
  unfold squareEnemy
  rcases h : b.getPieceAt s with _ | v
  · exact Decidable.isFalse (by simp [h])
  · cases v with
    | undef => exact Decidable.isFalse (by simp [h])
    | null => exact Decidable.isFalse (by simp [h])
    | piece q =>
      by_cases hc : q.color = self.color
      · exact Decidable.isFalse (by simp [h, hc])
      · exact Decidable.isTrue ⟨q, by simp [h], hc⟩

/-- Modelled from the spec: the walk of one direction of the directional
scan, sentence by sentence — stop as soon as the square is off-board; an
empty square is a candidate destination and the walk continues; a square
holding an opposite-color piece is a candidate destination and the walk
stops; a square holding a same-color piece is excluded and the walk stops. -/
def specWalk (b : Board) (self : Piece) (d : Int × Int) :
    Nat → Position → List Position
  | 0, _ => []
  | fuel + 1, s =>
    if s.isOnBoard then
      if squareEmpty b s then s :: specWalk b self d fuel (s.addOffset d.1 d.2)
      else if squareEnemy b self s then [s]
      else []
    else []

/-- Modelled from the spec: one direction of the directional scan.  With
`loop` the walk continues square by square; without `loop` it stops after
exactly one step, the single stepped-to square being a destination iff it is
on the board and empty or enemy-occupied. -/
def specScanDir (b : Board) (self : Piece) (start : Position) (d : Int × Int)
    (loop : Bool) : List Position :=
  let s1 := start.addOffset d.1 d.2
  if loop then specWalk b self d 8 s1
  else if s1.isOnBoard ∧ (squareEmpty b s1 ∨ squareEnemy b self s1) then [s1]
  else []

/-- The rank characters of a well-formed square string. -/
def rankChars : List Char := ['1', '2', '3', '4', '5', '6', '7', '8']

/-- A valid two-character square string: a column letter followed by a rank
digit. -/
def validSquareString : List Char → Bool
  | [c, d] => decide (c ∈ COLUMNS) && decide (d ∈ rankChars)
  | _ => false

/-! ## Helper lemmas -/

theorem jsIndexOfAux_not_mem {α : Type} [DecidableEq α] {l : List α} {a : α}
    (h : a ∉ l) : jsIndexOfAux l a = -1 := by
  induction l with
  | nil => rfl
  | cons b rest ih =>
    simp only [List.mem_cons, not_or] at h
    simp [jsIndexOfAux, h.1, ih h.2]

/-! ## C7: notation round-trip -/

/-- **C7** — Round-trip: for every valid notation string (a lowercase letter
'a'..'h' followed by a digit '1'..'8'), converting to a `Position` and back
reproduces the string; in particular index (0,0) corresponds to "a8". -/
theorem square_string_roundtrip :
    (∀ s : List Char, validSquareString s = true →
        Position.toString (Position.fromString s) = s)
    ∧ Position.toString { row := 0, column := 0 } = ['a', '8']
    ∧ Position.fromString ['a', '8'] = { row := 0, column := 0 } := by
  refine ⟨?_, by decide, by decide⟩
  intro s h
  match s with
  | [] => simp [validSquareString] at h
  | [c] => simp [validSquareString] at h
  | c :: d :: e :: rest => simp [validSquareString] at h
  | [c, d] =>
    simp only [validSquareString, Bool.and_eq_true, decide_eq_true_eq] at h
    obtain ⟨hc, hd⟩ := h
    simp only [COLUMNS, rankChars, List.mem_cons, List.not_mem_nil, or_false] at hc hd
    rcases hc with rfl | rfl | rfl | rfl | rfl | rfl | rfl | rfl <;>
      rcases hd with rfl | rfl | rfl | rfl | rfl | rfl | rfl | rfl <;> decide

/-- Witness for C7 at the concrete string "e4". -/
theorem square_string_roundtrip_instance :
    Position.toString (Position.fromString ['e', '4']) = ['e', '4'] :=
  square_string_roundtrip.1 ['e', '4'] (by decide)

/-! ## C3: fromString on invalid input -/

/-- **C3 counterexample** — contrary to the claim, `Position.fromString` does
not fail on a malformed square string: `"z9"` yields the off-board position
(-1, -1) (both `indexOf` calls answer -1), with no error of any kind. -/
theorem fromString_no_failure_counterexample :
    Position.fromString ['z', '9'] = { row := -1, column := -1 } ∧
      ¬ Position.isOnBoard { row := -1, column := -1 } := by
  constructor
  · decide
  · decide

/-- **C3 (amended)** — `fromString` parses the first two characters of the
string; a valid column letter and rank digit produce the corresponding
position (column = letter - 'a', row = 8 - rank), while an invalid column
letter (resp. rank digit) silently produces column = -1 (resp. row = -1)
rather than failing. -/
theorem fromString_amended (c d : Char) (rest : List Char) :
    (c ∈ COLUMNS → d ∈ rankChars →
        Position.fromString (c :: d :: rest) =
          { row := 56 - (d.toNat : Int), column := (c.toNat : Int) - 97 })
    ∧ (c ∉ COLUMNS → (Position.fromString (c :: d :: rest)).column = -1)
    ∧ (d ∉ rankChars → (Position.fromString (c :: d :: rest)).row = -1) := by
  refine ⟨?_, ?_, ?_⟩
  · intro hc hd
    simp only [COLUMNS, rankChars, List.mem_cons, List.not_mem_nil, or_false]
      at hc hd
    rcases hc with rfl | rfl | rfl | rfl | rfl | rfl | rfl | rfl <;>
      rcases hd with rfl | rfl | rfl | rfl | rfl | rfl | rfl | rfl <;>
        (simp only [Position.fromString, List.get?]; decide)
  · intro hc
    simp only [Position.fromString, jsIndexOf, List.get?]
    exact jsIndexOfAux_not_mem hc
  · intro hd
    show jsIndexOf ROWS (jsNumber ((c :: d :: rest).get? 1)) = -1
    rcases h : jsNumber (some d) with _ | n
    · simp only [List.get?, h, jsIndexOf]
    · simp only [List.get?, h, jsIndexOf]
      simp only [jsNumber] at h
      split at h
      next hcond =>
        injection h with h
        apply jsIndexOfAux_not_mem
        intro hmem
        have hn : 1 ≤ n ∧ n ≤ 8 := by
          simp only [ROWS, List.mem_cons, List.not_mem_nil, or_false] at hmem
          rcases hmem with rfl | rfl | rfl | rfl | rfl | rfl | rfl | rfl <;>
            constructor <;> decide
        apply hd
        have hdn : 49 ≤ d.toNat ∧ d.toNat ≤ 56 := by omega
        have hcase : d.toNat = 49 ∨ d.toNat = 50 ∨ d.toNat = 51
            ∨ d.toNat = 52 ∨ d.toNat = 53 ∨ d.toNat = 54
            ∨ d.toNat = 55 ∨ d.toNat = 56 := by omega
        have hofn : d = Char.ofNat d.toNat := (Char.ofNat_toNat d).symm
        rcases hcase with he | he | he | he | he | he | he | he <;>
          (rw [he] at hofn; rw [hofn]; decide)
      next => cases h

/-- Witness for C3's amended theorem at "z9" and "e4". -/
theorem fromString_amended_instance :
    (Position.fromString ['z', '9'] : Position).column = -1 ∧
      Position.fromString ['e', '4'] =
        { row := 56 - (('4').toNat : Int), column := (('e').toNat : Int) - 97 } :=
  ⟨(fromString_amended 'z' '9' []).2.1 (by decide),
   (fromString_amended 'e' '4' []).1 (by decide) (by decide)⟩

theorem getD_mem {α : Type} {l : List α} {n : Nat} (h : n < l.length) (d : α) :
    l.getD n d ∈ l := by
  rw [List.getD_eq_getElem?_getD, List.getElem?_eq_getElem h]
  exact List.getElem_mem h

theorem wf_row_length {b : Board} (hwf : WellFormed b) {n : Nat}
    (h : n < b.grid.length) : (b.grid.getD n []).length = 8 :=
  (hwf.2 _ (getD_mem h [])).1

theorem wf_cell_ne_undef {b : Board} (hwf : WellFormed b) {n m : Nat}
    (hn : n < b.grid.length) (hm : m < (b.grid.getD n []).length) :
    (b.grid.getD n []).getD m JsVal.undef ≠ JsVal.undef :=
  (hwf.2 _ (getD_mem hn [])).2 _ (getD_mem hm _)

/-- On a well-formed board, reading an on-board square succeeds and never
yields `undefined`. -/
theorem getPieceAt_wf {b : Board} (hwf : WellFormed b) {s : Position}
    (hs : s.isOnBoard) :
    b.getPieceAt s = some (cellAt b.grid s.row s.column) ∧
      cellAt b.grid s.row s.column ≠ JsVal.undef := by
  obtain ⟨h1, h2, h3, h4⟩ := hs
  have hlen : b.grid.length = 8 := hwf.1
  have hrow : (0 ≤ s.row ∧ s.row < (b.grid.length : Int)) := by omega
  have hrlen : (b.grid.getD s.row.toNat []).length = 8 :=
    wf_row_length hwf (by omega)
  have hcol : (0 ≤ s.column ∧
      s.column < ((b.grid.getD s.row.toNat []).length : Int)) := by omega
  constructor
  · unfold Board.getPieceAt cellAt
    rw [if_pos hrow, if_pos hrow]
  · unfold cellAt jsGetRow
    rw [if_pos hrow, if_pos hcol]
    exact wf_cell_ne_undef hwf (by omega) (by omega)

/-- On a well-formed board, a read that yields a value other than `undefined`
was a read of an on-board square. -/
theorem getPieceAt_some_onBoard {b : Board} (hwf : WellFormed b) {s : Position}
    {v : JsVal} (h : b.getPieceAt s = some v) (hv : v ≠ JsVal.undef) :
    s.isOnBoard := by
  have hlen : b.grid.length = 8 := hwf.1
  unfold Board.getPieceAt at h
  split at h
  next hr =>
    injection h with h
    have hrlen : (b.grid.getD s.row.toNat []).length = 8 :=
      wf_row_length hwf (by omega)
    unfold jsGetRow at h
    split at h
    next hc =>
      refine ⟨hr.1, by omega, hc.1, by omega⟩
    next hc => exact absurd h.symm hv
  next => cases h

/-! ## C4: getPieceAt bounds behavior -/

/-- **C4 counterexample** — contrary to the claim, `getPieceAt` does *not*
fail on every out-of-range position: with the row in range and only the
column out of range (here (0, 8) on the freshly initialized board), the
JavaScript read `grid[0][8]` returns `undefined` without any error.  (Only an
out-of-range *row* throws, because `grid[row]` is then `undefined` and the
column access faults.) -/
theorem getPieceAt_bounds_counterexample :
    ¬ (Board.getPieceAt initialBoard { row := 0, column := 8 } = none) ∧
      Board.getPieceAt initialBoard { row := 0, column := 8 }
        = some JsVal.undef := by
  constructor
  · decide
  · decide

/-- **C4 (amended)** — on a well-formed board, `getPieceAt` fails iff the
*row* index is outside [0,7]; with the row in range but the column outside
[0,7] it returns `undefined` (an absence-like value, not an error); with both
indices in range it returns the occupant of that cell (a piece or `null`),
never reading outside the grid. -/
theorem getPieceAt_bounds_amended (b : Board) (pos : Position)
    (hwf : WellFormed b) :
    (b.getPieceAt pos = none ↔ ¬ (0 ≤ pos.row ∧ pos.row ≤ 7))
    ∧ ((0 ≤ pos.row ∧ pos.row ≤ 7) → ¬ (0 ≤ pos.column ∧ pos.column ≤ 7) →
        b.getPieceAt pos = some JsVal.undef)
    ∧ (pos.isOnBoard →
        b.getPieceAt pos = some (cellAt b.grid pos.row pos.column)
          ∧ cellAt b.grid pos.row pos.column ≠ JsVal.undef) := by
  have hlen : b.grid.length = 8 := hwf.1
  refine ⟨?_, ?_, fun hs => getPieceAt_wf hwf hs⟩
  · unfold Board.getPieceAt
    split
    next h => simp only [reduceCtorEq, false_iff]; omega
    next h => simp only [true_iff]; omega
  · intro h1 h2
    have hrlen : (b.grid.getD pos.row.toNat []).length = 8 :=
      wf_row_length hwf (by omega)
    unfold Board.getPieceAt jsGetRow
    rw [if_pos (by omega : 0 ≤ pos.row ∧ pos.row < (b.grid.length : Int))]
    rw [if_neg (by omega :
      ¬ (0 ≤ pos.column ∧
          pos.column < ((b.grid.getD pos.row.toNat []).length : Int)))]

/-- Witness for C4's amended theorem: an out-of-range row on the initial
board fails, an in-range position reads its occupant. -/
theorem getPieceAt_bounds_amended_instance :
    Board.getPieceAt initialBoard { row := -1, column := 5 } = none ∧
      Board.getPieceAt initialBoard { row := 3, column := 5 }
        = some (cellAt initialGrid 3 5) :=
  ⟨((getPieceAt_bounds_amended initialBoard { row := -1, column := 5 }
      (by decide)).1).mpr (by decide),
   ((getPieceAt_bounds_amended initialBoard { row := 3, column := 5 }
      (by decide)).2.2 (by decide)).1⟩

/-! ## C6: initial layout -/

/-- The piece entities stored in a grid, in row-major order. -/
def piecesOf (g : List (List JsVal)) : List Piece :=
  g.flatten.filterMap (fun v => match v with
    | JsVal.piece p => some p
    | _ => none)

/-- The piece kind stored in a cell, if any. -/
def cellKind : JsVal → Option PieceKind
  | JsVal.piece p => some p.kind
  | _ => none

/-- **C6** — After initialization the grid is 8×8 with exactly 32 occupied
cells: 16 pieces of each color, 8 pawns per color (black pawns on row 1,
white pawns on row 6), back ranks on row 0 (black) and row 7 (white) ordered
rook, knight, bishop, queen, king, bishop, knight, rook, and every other cell
empty. -/
theorem initial_layout :
    initialGrid.length = 8
    ∧ (∀ row ∈ initialGrid, row.length = 8)
    ∧ initialGrid.flatten.countP (fun v => v != JsVal.null) = 32
    ∧ (piecesOf initialGrid).length = 32
    ∧ (piecesOf initialGrid).countP (fun p => p.color == Color.black) = 16
    ∧ (piecesOf initialGrid).countP (fun p => p.color == Color.white) = 16
    ∧ (piecesOf initialGrid).countP
        (fun p => p.kind == PieceKind.pawn && p.color == Color.black) = 8
    ∧ (piecesOf initialGrid).countP
        (fun p => p.kind == PieceKind.pawn && p.color == Color.white) = 8
    ∧ (initialGrid.getD 1 []).all (fun v => match v with
        | JsVal.piece p => p.kind == PieceKind.pawn && p.color == Color.black
        | _ => false)
    ∧ (initialGrid.getD 6 []).all (fun v => match v with
        | JsVal.piece p => p.kind == PieceKind.pawn && p.color == Color.white
        | _ => false)
    ∧ (initialGrid.getD 0 []).map cellKind = pieceOrder.map some
    ∧ (initialGrid.getD 7 []).map cellKind = pieceOrder.map some
    ∧ (initialGrid.getD 0 []).all (fun v => match v with
        | JsVal.piece p => p.color == Color.black
        | _ => false)
    ∧ (initialGrid.getD 7 []).all (fun v => match v with
        | JsVal.piece p => p.color == Color.white
        | _ => false)
    ∧ initialGrid.getD 2 [] = emptyRow
    ∧ initialGrid.getD 3 [] = emptyRow
    ∧ initialGrid.getD 4 [] = emptyRow
    ∧ initialGrid.getD 5 [] = emptyRow := by
  decide

/-! ## Position-search and cell-counting lemmas -/

theorem findCol_eq_none {p : Piece} {l : List JsVal} :
    findCol p l = none ↔ JsVal.piece p ∉ l := by
  induction l with
  | nil => simp [findCol]
  | cons v rest ih =>
    unfold findCol
    by_cases h : v = JsVal.piece p
    · simp [h]
    · simp only [if_neg h, Option.map_eq_none', ih, List.mem_cons, not_or]
      constructor
      · intro hn; exact ⟨fun h' => h h'.symm, hn⟩
      · intro hn; exact hn.2

theorem findCol_eq_some {p : Piece} {l : List JsVal} {c : Nat}
    (h : findCol p l = some c) :
    c < l.length ∧ l.getD c JsVal.undef = JsVal.piece p := by
  induction l generalizing c with
  | nil => cases h
  | cons v rest ih =>
    unfold findCol at h
    by_cases hv : v = JsVal.piece p
    · rw [if_pos hv] at h
      injection h with h
      subst h
      simpa using hv
    · rw [if_neg hv] at h
      rcases hmap : findCol p rest with _ | c'
      · rw [hmap] at h; cases h
      · rw [hmap] at h
        injection h with h
        subst h
        obtain ⟨h1, h2⟩ := ih hmap
        exact ⟨by simpa using Nat.succ_lt_succ h1, by simpa using h2⟩

theorem getPositionAux_eq_none {p : Piece} {g : List (List JsVal)} {r : Nat} :
    getPositionAux p g r = none ↔ ∀ row ∈ g, JsVal.piece p ∉ row := by
  induction g generalizing r with
  | nil => simp [getPositionAux]
  | cons row rest ih =>
    unfold getPositionAux
    rcases hf : findCol p row with _ | c
    · simp only [List.mem_cons, ih]
      constructor
      · intro hall row' hrow'
        rcases hrow' with rfl | hrow'
        · exact findCol_eq_none.mp hf
        · exact hall row' hrow'
      · intro hall row' hrow'
        exact hall row' (Or.inr hrow')
    · have hmem : JsVal.piece p ∈ row := by
        obtain ⟨hc, hcell⟩ := findCol_eq_some hf
        rw [← hcell]
        exact getD_mem hc _
      constructor
      · intro h; cases h
      · intro hall; exact absurd hmem (hall row (List.mem_cons_self row rest))

theorem getPositionAux_eq_some {p : Piece} {g : List (List JsVal)} {r : Nat}
    {pos : Position} (h : getPositionAux p g r = some pos) :
    ∃ i c : Nat, pos = { row := ((r + i : Nat) : Int), column := (c : Int) }
      ∧ i < g.length ∧ findCol p (g.getD i []) = some c := by
  induction g generalizing r with
  | nil => cases h
  | cons row rest ih =>
    unfold getPositionAux at h
    rcases hf : findCol p row with _ | c
    · rw [hf] at h
      obtain ⟨i, c, hpos, hi, hfind⟩ := ih h
      refine ⟨i + 1, c, ?_, by simpa using Nat.succ_lt_succ hi,
        by simpa using hfind⟩
      rw [hpos]
      simp only [Position.mk.injEq]
      refine ⟨by push_cast; ring, by trivial⟩
    · rw [hf] at h
      injection h with h
      subst h
      exact ⟨0, c, by simp, by simp, by simpa using hf⟩

/-- What a successful position scan guarantees: the returned coordinates are
indices into the grid and that cell holds the piece. -/
theorem getPosition_eq_some {b : Board} {p : Piece} {pos : Position}
    (h : Piece.getPosition b p = some pos) :
    ∃ i c : Nat, pos = { row := (i : Int), column := (c : Int) }
      ∧ i < b.grid.length ∧ c < (b.grid.getD i []).length
      ∧ (b.grid.getD i []).getD c JsVal.undef = JsVal.piece p := by
  obtain ⟨i, c, hpos, hi, hfind⟩ := getPositionAux_eq_some h
  obtain ⟨hc, hcell⟩ := findCol_eq_some hfind
  exact ⟨i, c, by simpa using hpos, hi, hc, hcell⟩

/-- The position scan fails exactly when the piece sits in no cell. -/
theorem getPosition_eq_none {b : Board} {p : Piece} :
    Piece.getPosition b p = none ↔ ∀ row ∈ b.grid, JsVal.piece p ∉ row :=
  getPositionAux_eq_none

theorem count_set_exchange {α : Type} [DecidableEq α] (l : List α) (n : Nat)
    (v a d : α) (h : n < l.length) :
    (l.set n v).count a + (if l.getD n d = a then 1 else 0)
      = l.count a + (if v = a then 1 else 0) := by
  induction l generalizing n with
  | nil => simp at h
  | cons x rest ih =>
    cases n with
    | zero =>
      simp only [List.set_cons_zero, List.getD_cons_zero, List.count_cons,
        beq_iff_eq]
      split_ifs <;> omega
    | succ m =>
      simp only [List.set_cons_succ, List.getD_cons_succ, List.count_cons,
        beq_iff_eq]
      have := ih m (Nat.lt_of_succ_lt_succ (by simpa using h))
      split_ifs at this ⊢ <;> omega

theorem count_flatten_set {α : Type} [DecidableEq α] (g : List (List α))
    (n : Nat) (r : List α) (a : α) (h : n < g.length) :
    ((g.set n r).flatten).count a + (g.getD n []).count a
      = (g.flatten).count a + r.count a := by
  induction g generalizing n with
  | nil => simp at h
  | cons x rest ih =>
    cases n with
    | zero =>
      simp only [List.set_cons_zero, List.getD_cons_zero, List.flatten_cons,
        List.count_append]
      omega
    | succ m =>
      simp only [List.set_cons_succ, List.getD_cons_succ, List.flatten_cons,
        List.count_append]
      have := ih m (Nat.lt_of_succ_lt_succ (by simpa using h))
      omega

theorem count_setRow_exchange (l : List JsVal) (i : Int) (v a : JsVal)
    (ha : a ≠ JsVal.undef) :
    (setRow l i v).count a + (if 0 ≤ i ∧ jsGetRow l i = a then 1 else 0)
      = l.count a + (if 0 ≤ i ∧ v = a then 1 else 0) := by
  unfold setRow
  by_cases h0 : i < 0
  · rw [if_pos h0]
    have hni : ¬ (0 ≤ i) := by omega
    simp [hni]
  · rw [if_neg h0]
    have h0' : 0 ≤ i := by omega
    by_cases hlen : i.toNat < l.length
    · rw [if_pos hlen]
      have hj : jsGetRow l i = l.getD i.toNat JsVal.undef := by
        unfold jsGetRow
        rw [if_pos ⟨h0', by omega⟩]
      rw [hj]
      have := count_set_exchange l i.toNat v a JsVal.undef hlen
      simp only [h0', true_and]
      split_ifs at this ⊢ <;> omega
    · rw [if_neg hlen]
      have hj : jsGetRow l i = JsVal.undef := by
        unfold jsGetRow
        rw [if_neg (by omega)]
      rw [hj]
      rw [if_neg (fun hh => ha hh.2.symm)]
      have hrep : (List.replicate (i.toNat - l.length) JsVal.undef).count a = 0 := by
        simp [List.count_replicate, beq_iff_eq, Ne.symm ha]
      simp only [List.count_append, hrep, List.count_cons, List.count_nil,
        beq_iff_eq, h0', true_and]
      split_ifs <;> omega

theorem count_setCell_exchange (g : List (List JsVal)) (rI cI : Int)
    (v a : JsVal) (ha : a ≠ JsVal.undef)
    (hr : 0 ≤ rI ∧ rI < (g.length : Int)) :
    ((setCell g rI cI v).flatten).count a
        + (if 0 ≤ cI ∧ jsGetRow (g.getD rI.toNat []) cI = a then 1 else 0)
      = (g.flatten).count a + (if 0 ≤ cI ∧ v = a then 1 else 0) := by
  unfold setCell
  rw [if_pos hr]
  have h1 := count_flatten_set g rI.toNat (setRow (g.getD rI.toNat []) cI v) a
    (by omega)
  have h2 := count_setRow_exchange (g.getD rI.toNat []) cI v a ha
  split_ifs at h2 ⊢ <;> omega

theorem length_setCell (g : List (List JsVal)) (r c : Int) (v : JsVal) :
    (setCell g r c v).length = g.length := by
  unfold setCell
  split <;> simp

/-- Number of grid cells holding this piece entity. -/
def occCount (b : Board) (p : Piece) : Nat :=
  b.grid.flatten.count (JsVal.piece p)

/-! ## C5: movePiece failure behavior -/

/-- **C5 counterexample** — contrary to the claim, `movePiece` can fail
*after* mutating the grid: moving the white queenside rook (which sits at
(7,0) on the fresh board) to the off-grid destination (-1, 0) (e.g. obtained
by parsing the string "a9") first nulls out the origin cell and only then
faults on the destination assignment, leaving a grid that differs from the
original and no longer contains the piece anywhere. -/
theorem movePiece_mutation_on_failure_counterexample :
    Board.movePiece initialBoard
        { id := 17, kind := PieceKind.rook, color := Color.white }
        { row := -1, column := 0 }
      = MoveResult.fault { grid := setCell initialGrid 7 0 JsVal.null }
    ∧ setCell initialGrid 7 0 JsVal.null ≠ initialGrid
    ∧ Piece.getPosition { grid := setCell initialGrid 7 0 JsVal.null }
        { id := 17, kind := PieceKind.rook, color := Color.white } = none := by
  refine ⟨by decide, by decide, by decide⟩

/-- **C5 (amended)** — `movePiece` fails with `PieceNotFound` iff the piece
is absent from every cell of the grid, and that failure happens before any
mutation; when the piece is found and the destination row is an index of the
grid the move completes in full; but when the destination row is off the
grid, the call faults only after clearing the origin, strictly decreasing the
number of cells holding the piece. -/
theorem movePiece_of_getPosition_none {b : Board} {p : Piece} {pos : Position}
    (h : Piece.getPosition b p = none) :
    b.movePiece p pos = MoveResult.notFound := by
  unfold Board.movePiece
  rw [h]

theorem movePiece_of_getPosition_some {b : Board} {p : Piece} {pos : Position}
    {cur : Position} (h : Piece.getPosition b p = some cur) :
    b.movePiece p pos =
      if 0 ≤ pos.row ∧
          pos.row < ((setCell b.grid cur.row cur.column JsVal.null).length : Int)
      then MoveResult.ok
        { grid := setCell (setCell b.grid cur.row cur.column JsVal.null)
            pos.row pos.column (JsVal.piece p) }
      else MoveResult.fault
        { grid := setCell b.grid cur.row cur.column JsVal.null } := by
  unfold Board.movePiece
  rw [h]

theorem movePiece_failure_modes (b : Board) (p : Piece) (pos : Position) :
    (b.movePiece p pos = MoveResult.notFound ↔
        ∀ row ∈ b.grid, JsVal.piece p ∉ row)
    ∧ (∀ cur, Piece.getPosition b p = some cur →
        ((0 ≤ pos.row ∧ pos.row < (b.grid.length : Int)) →
          b.movePiece p pos = MoveResult.ok
            { grid := setCell (setCell b.grid cur.row cur.column JsVal.null)
                pos.row pos.column (JsVal.piece p) })
        ∧ (¬ (0 ≤ pos.row ∧ pos.row < (b.grid.length : Int)) →
            b.movePiece p pos = MoveResult.fault
              { grid := setCell b.grid cur.row cur.column JsVal.null }
            ∧ occCount { grid := setCell b.grid cur.row cur.column JsVal.null } p
                < occCount b p)) := by
  constructor
  · rw [← getPosition_eq_none]
    rcases h : Piece.getPosition b p with _ | cur
    · simp [movePiece_of_getPosition_none h, h]
    · rw [movePiece_of_getPosition_some h]
      constructor
      · intro hc
        split at hc <;> cases hc
      · intro hc
        simp at hc
  · intro cur hcur
    have hlen := length_setCell b.grid cur.row cur.column JsVal.null
    constructor
    · intro hrow
      rw [movePiece_of_getPosition_some hcur]
      rw [if_pos (by rw [hlen]; exact hrow)]
    · intro hrow
      obtain ⟨i, c, hpos, hi, hc, hcell⟩ := getPosition_eq_some hcur
      constructor
      · rw [movePiece_of_getPosition_some hcur]
        rw [if_neg (by rw [hlen]; exact hrow)]
      · have hx := count_setCell_exchange b.grid cur.row cur.column JsVal.null
          (JsVal.piece p) (by simp)
          (by rw [hpos]
              show (0 : Int) ≤ (i : Int) ∧ (i : Int) < (b.grid.length : Int)
              exact ⟨Int.natCast_nonneg i, by exact_mod_cast hi⟩)
        have hcol : (0 ≤ cur.column ∧
            jsGetRow (b.grid.getD cur.row.toNat []) cur.column = JsVal.piece p) := by
          rw [hpos]
          show (0 : Int) ≤ (c : Int) ∧
            jsGetRow (b.grid.getD ((i : Int)).toNat []) (c : Int) = JsVal.piece p
          refine ⟨Int.natCast_nonneg c, ?_⟩
          unfold jsGetRow
          have hcond : (0 : Int) ≤ (c : Int) ∧
              (c : Int) < ((b.grid.getD ((i : Int)).toNat []).length : Int) := by
            rw [Int.toNat_natCast]
            exact ⟨Int.natCast_nonneg c, by exact_mod_cast hc⟩
          rw [if_pos hcond, Int.toNat_natCast, Int.toNat_natCast]
          exact hcell
        rw [if_pos hcol] at hx
        rw [if_neg (by rintro ⟨-, hh⟩; cases hh)] at hx
        show (setCell b.grid cur.row cur.column JsVal.null).flatten.count
            (JsVal.piece p) < b.grid.flatten.count (JsVal.piece p)
        omega

/-- Witness for C5's amended theorem: the concrete faulting move of the
counterexample, and a completing move of the same rook to an on-grid row. -/
theorem movePiece_failure_modes_instance :
    Board.movePiece initialBoard
        { id := 17, kind := PieceKind.rook, color := Color.white }
        { row := -1, column := 0 }
      = MoveResult.fault { grid := setCell initialGrid 7 0 JsVal.null } :=
  (((movePiece_failure_modes initialBoard
      { id := 17, kind := PieceKind.rook, color := Color.white }
      { row := -1, column := 0 }).2 { row := 7, column := 0 }
      (by decide)).2 (by decide)).1

/-! ## C9: a piece occupies at most one cell -/

theorem count_piece_filterMap (l : List JsVal) (q : Piece) :
    l.count (JsVal.piece q)
      = (l.filterMap (fun v => match v with
          | JsVal.piece p => some p
          | _ => none)).count q := by
  induction l with
  | nil => rfl
  | cons v rest ih =>
    cases v with
    | undef => simpa [List.count_cons, List.filterMap_cons] using ih
    | null => simpa [List.count_cons, List.filterMap_cons] using ih
    | piece p =>
      simp only [List.count_cons, List.filterMap_cons, beq_iff_eq]
      by_cases hpq : p = q
      · subst hpq; simp [ih]
      · simp only [if_neg (fun hh : JsVal.piece p = JsVal.piece q =>
          hpq (by cases hh; rfl)), if_neg hpq, ih]

theorem occCount_initial_le_one (p : Piece) : occCount initialBoard p ≤ 1 := by
  have hnd : (piecesOf initialGrid).Nodup := by decide
  have hcount := List.nodup_iff_count_le_one.mp hnd p
  show initialGrid.flatten.count (JsVal.piece p) ≤ 1
  rw [count_piece_filterMap]
  exact hcount

/-- What a successful position scan guarantees, phrased for the two cell
accesses `movePiece` performs on the origin. -/
theorem getPosition_cell {b : Board} {p : Piece} {cur : Position}
    (hcur : Piece.getPosition b p = some cur) :
    (0 ≤ cur.row ∧ cur.row < (b.grid.length : Int)) ∧
      (0 ≤ cur.column ∧
        jsGetRow (b.grid.getD cur.row.toNat []) cur.column = JsVal.piece p) := by
  obtain ⟨i, c, hpos, hi, hc, hcell⟩ := getPosition_eq_some hcur
  constructor
  · rw [hpos]
    show (0 : Int) ≤ (i : Int) ∧ (i : Int) < (b.grid.length : Int)
    exact ⟨Int.natCast_nonneg i, by exact_mod_cast hi⟩
  · rw [hpos]
    show (0 : Int) ≤ (c : Int) ∧
      jsGetRow (b.grid.getD ((i : Int)).toNat []) (c : Int) = JsVal.piece p
    refine ⟨Int.natCast_nonneg c, ?_⟩
    unfold jsGetRow
    have hcond : (0 : Int) ≤ (c : Int) ∧
        (c : Int) < ((b.grid.getD ((i : Int)).toNat []).length : Int) := by
      rw [Int.toNat_natCast]
      exact ⟨Int.natCast_nonneg c, by exact_mod_cast hc⟩
    rw [if_pos hcond, Int.toNat_natCast, Int.toNat_natCast]
    exact hcell

theorem occCount_le_one_preserved {b : Board} {p : Piece} {pos : Position}
    (hinv : ∀ q, occCount b q ≤ 1) {b' : Board}
    (h : b.movePiece p pos = MoveResult.ok b' ∨
         b.movePiece p pos = MoveResult.fault b') (q : Piece) :
    occCount b' q ≤ 1 := by
  rcases hcur : Piece.getPosition b p with _ | cur
  · rcases h with h | h <;>
      (rw [movePiece_of_getPosition_none hcur] at h; cases h)
  · obtain ⟨hr, hcol⟩ := getPosition_cell hcur
    have hx1 := fun (a : JsVal) (ha : a ≠ JsVal.undef) =>
      count_setCell_exchange b.grid cur.row cur.column JsVal.null a ha hr
    have hclear_p :
        (setCell b.grid cur.row cur.column JsVal.null).flatten.count
          (JsVal.piece p) = 0 := by
      have hx := hx1 (JsVal.piece p) (by simp)
      rw [if_pos hcol, if_neg (by rintro ⟨-, hh⟩; cases hh)] at hx
      have hb := hinv p
      unfold occCount at hb
      omega
    have hclear_le : ∀ q' : Piece,
        (setCell b.grid cur.row cur.column JsVal.null).flatten.count
            (JsVal.piece q')
          ≤ b.grid.flatten.count (JsVal.piece q') := by
      intro q'
      have hx := hx1 (JsVal.piece q') (by simp)
      rw [if_neg (show ¬ (0 ≤ cur.column ∧ JsVal.null = JsVal.piece q') by
        rintro ⟨-, hh⟩; cases hh)] at hx
      split_ifs at hx <;> omega
    have hinv' := fun q' => hinv q'
    rw [movePiece_of_getPosition_some hcur] at h
    rcases h with h | h
    · split at h
      next hcond =>
        injection h with h
        subst h
        have hx2 := count_setCell_exchange
          (setCell b.grid cur.row cur.column JsVal.null) pos.row pos.column
          (JsVal.piece p) (JsVal.piece q) (by simp) hcond
        show (setCell (setCell b.grid cur.row cur.column JsVal.null)
            pos.row pos.column (JsVal.piece p)).flatten.count (JsVal.piece q) ≤ 1
        by_cases hq : q = p
        · subst hq
          rw [hclear_p] at hx2
          split_ifs at hx2 <;> omega
        · rw [if_neg (show ¬ (0 ≤ pos.column ∧ JsVal.piece p = JsVal.piece q) by
            rintro ⟨-, hh⟩
            injection hh with hh2
            exact hq hh2.symm)] at hx2
          have h1 := hclear_le q
          have h2 := hinv q
          unfold occCount at h2
          split_ifs at hx2 <;> omega
      next => cases h
    · split at h
      next => cases h
      next =>
        injection h with h
        subst h
        show (setCell b.grid cur.row cur.column JsVal.null).flatten.count
          (JsVal.piece q) ≤ 1
        have h1 := hclear_le q
        have h2 := hinv q
        unfold occCount at h2
        omega

/-- The board states reachable through the public interface: the freshly
initialized board (the constructor calls `initialize`, and re-initializing
any board yields the same state) and anything produced from a reachable
state by `movePiece` — including the half-mutated state a faulting call
leaves behind. -/
inductive Reachable : Board → Prop
  | start : Reachable initialBoard
  | moveOk {b b' : Board} {p : Piece} {pos : Position} :
      Reachable b → Board.movePiece b p pos = MoveResult.ok b' → Reachable b'
  | moveFault {b b' : Board} {p : Piece} {pos : Position} :
      Reachable b → Board.movePiece b p pos = MoveResult.fault b' → Reachable b'

/-- **C9** — in every board state reachable by construction, initialization
and any sequence of `movePiece` calls, each piece entity occupies at most one
cell of the grid. -/
theorem piece_in_at_most_one_cell (b : Board) (h : Reachable b) (p : Piece) :
    occCount b p ≤ 1 := by
  have hall : ∀ q, occCount b q ≤ 1 := by
    induction h with
    | start => exact occCount_initial_le_one
    | moveOk hb hmv ih => exact occCount_le_one_preserved ih (Or.inl hmv)
    | moveFault hb hmv ih => exact occCount_le_one_preserved ih (Or.inr hmv)
  exact hall p

/-- Witness for C9 on the initial board and a concrete pawn. -/
theorem piece_in_at_most_one_cell_instance :
    occCount initialBoard
      { id := 0, kind := PieceKind.pawn, color := Color.black } ≤ 1 :=
  piece_in_at_most_one_cell initialBoard Reachable.start
    { id := 0, kind := PieceKind.pawn, color := Color.black }

/-! ## C1: the directional scan matches its specification -/

theorem scanDir_succ (b : Board) (self : Piece) (d : Int × Int) (loop : Bool)
    (f : Nat) (s : Position) :
    scanDir b self d loop (f + 1) s =
      (if (Position.addOffset s d.1 d.2).isOnBoard then
        match b.getPieceAt (Position.addOffset s d.1 d.2) with
        | none => none
        | some JsVal.null =>
          if loop then
            (scanDir b self d loop f (Position.addOffset s d.1 d.2)).map
              (Position.addOffset s d.1 d.2 :: ·)
          else some [Position.addOffset s d.1 d.2]
        | some (JsVal.piece q) =>
          some (if q.color ≠ self.color then [Position.addOffset s d.1 d.2]
                else [])
        | some JsVal.undef => some [Position.addOffset s d.1 d.2]
      else some []) := rfl

theorem specWalk_succ (b : Board) (self : Piece) (d : Int × Int)
    (f : Nat) (s : Position) :
    specWalk b self d (f + 1) s =
      (if s.isOnBoard then
        if squareEmpty b s then
          s :: specWalk b self d f (s.addOffset d.1 d.2)
        else if squareEnemy b self s then [s]
        else []
      else []) := rfl

theorem scanDir_succ_off {b : Board} {self : Piece} {d : Int × Int}
    {loop : Bool} {f : Nat} {s : Position}
    (h : ¬ (Position.addOffset s d.1 d.2).isOnBoard) :
    scanDir b self d loop (f + 1) s = some [] := by
  rw [scanDir_succ]
  rw [if_neg h]

theorem scanDir_succ_null {b : Board} {self : Piece} {d : Int × Int}
    {loop : Bool} {f : Nat} {s : Position}
    (hob : (Position.addOffset s d.1 d.2).isOnBoard)
    (hget : b.getPieceAt (Position.addOffset s d.1 d.2) = some JsVal.null) :
    scanDir b self d loop (f + 1) s =
      if loop then
        (scanDir b self d loop f (Position.addOffset s d.1 d.2)).map
          (Position.addOffset s d.1 d.2 :: ·)
      else some [Position.addOffset s d.1 d.2] := by
  rw [scanDir_succ]
  rw [if_pos hob, hget]

theorem scanDir_succ_piece {b : Board} {self : Piece} {d : Int × Int}
    {loop : Bool} {f : Nat} {s : Position} {q : Piece}
    (hob : (Position.addOffset s d.1 d.2).isOnBoard)
    (hget : b.getPieceAt (Position.addOffset s d.1 d.2)
      = some (JsVal.piece q)) :
    scanDir b self d loop (f + 1) s =
      some (if q.color ≠ self.color then [Position.addOffset s d.1 d.2]
            else []) := by
  rw [scanDir_succ]
  rw [if_pos hob, hget]

theorem specWalk_succ_off {b : Board} {self : Piece} {d : Int × Int}
    {f : Nat} {s : Position} (h : ¬ s.isOnBoard) :
    specWalk b self d (f + 1) s = [] := by
  rw [specWalk_succ]
  rw [if_neg h]

theorem specWalk_succ_empty {b : Board} {self : Piece} {d : Int × Int}
    {f : Nat} {s : Position} (hob : s.isOnBoard) (hemp : squareEmpty b s) :
    specWalk b self d (f + 1) s
      = s :: specWalk b self d f (s.addOffset d.1 d.2) := by
  rw [specWalk_succ]
  rw [if_pos hob, if_pos hemp]

theorem specWalk_succ_enemy {b : Board} {self : Piece} {d : Int × Int}
    {f : Nat} {s : Position} (hob : s.isOnBoard) (hne : ¬ squareEmpty b s)
    (hen : squareEnemy b self s) :
    specWalk b self d (f + 1) s = [s] := by
  rw [specWalk_succ]
  rw [if_pos hob, if_neg hne, if_pos hen]

theorem specWalk_succ_same {b : Board} {self : Piece} {d : Int × Int}
    {f : Nat} {s : Position} (hob : s.isOnBoard) (hne : ¬ squareEmpty b s)
    (hnen : ¬ squareEnemy b self s) :
    specWalk b self d (f + 1) s = [] := by
  rw [specWalk_succ]
  rw [if_pos hob, if_neg hne, if_neg hnen]

/-- One looping direction of the source scan computes exactly the walk the
spec describes (starting the description at the first stepped-to square). -/
theorem scanDir_eq_specWalk {b : Board} (hwf : WellFormed b) (self : Piece)
    (d : Int × Int) :
    ∀ (fuel : Nat) (s : Position),
      scanDir b self d true fuel s
        = some (specWalk b self d fuel (s.addOffset d.1 d.2)) := by
  intro fuel
  induction fuel with
  | zero => intro s; rfl
  | succ f ih =>
    intro s
    by_cases hob : (Position.addOffset s d.1 d.2).isOnBoard
    · obtain ⟨hget, hund⟩ :=
        getPieceAt_wf hwf (s := Position.addOffset s d.1 d.2) hob
      rcases hcell : cellAt b.grid (Position.addOffset s d.1 d.2).row
          (Position.addOffset s d.1 d.2).column with _ | _ | q
      · exact absurd hcell hund
      · rw [hcell] at hget
        rw [scanDir_succ_null hob hget, specWalk_succ_empty hob hget,
          if_pos rfl, ih]
        rfl
      · rw [hcell] at hget
        rw [scanDir_succ_piece hob hget]
        by_cases hc : q.color = self.color
        · rw [specWalk_succ_same hob
            (by intro hemp; rw [show squareEmpty b (Position.addOffset s d.1 d.2)
                  = (b.getPieceAt (Position.addOffset s d.1 d.2) = some JsVal.null)
                from rfl] at hemp; rw [hget] at hemp; cases hemp)
            (by rintro ⟨q', hq', hc'⟩
                rw [hget] at hq'
                injection hq' with hq'
                injection hq' with hq'
                exact hc' (hq' ▸ hc))]
          rw [if_neg (by simpa using hc)]
        · rw [specWalk_succ_enemy hob
            (by intro hemp; rw [show squareEmpty b (Position.addOffset s d.1 d.2)
                  = (b.getPieceAt (Position.addOffset s d.1 d.2) = some JsVal.null)
                from rfl] at hemp; rw [hget] at hemp; cases hemp)
            ⟨q, hget, hc⟩]
          rw [if_pos (by simpa using hc)]
    · rw [scanDir_succ_off hob, specWalk_succ_off hob]

/-- One non-looping direction of the source scan computes exactly the
one-step rule the spec describes. -/
theorem scanDir_false_eq_spec {b : Board} (hwf : WellFormed b) (self : Piece)
    (d : Int × Int) (f : Nat) (s : Position) :
    scanDir b self d false (f + 1) s
      = some (if (Position.addOffset s d.1 d.2).isOnBoard ∧
            (squareEmpty b (Position.addOffset s d.1 d.2) ∨
              squareEnemy b self (Position.addOffset s d.1 d.2))
          then [Position.addOffset s d.1 d.2] else []) := by
  by_cases hob : (Position.addOffset s d.1 d.2).isOnBoard
  · obtain ⟨hget, hund⟩ :=
      getPieceAt_wf hwf (s := Position.addOffset s d.1 d.2) hob
    rcases hcell : cellAt b.grid (Position.addOffset s d.1 d.2).row
        (Position.addOffset s d.1 d.2).column with _ | _ | q
    · exact absurd hcell hund
    · rw [hcell] at hget
      rw [scanDir_succ_null hob hget, if_neg (by simp),
        if_pos ⟨hob, Or.inl hget⟩]
    · rw [hcell] at hget
      rw [scanDir_succ_piece hob hget]
      by_cases hc : q.color = self.color
      · rw [if_neg (by simpa using hc), if_neg ?_]
        rintro ⟨-, hemp | ⟨q', hq', hc'⟩⟩
        · rw [show squareEmpty b (Position.addOffset s d.1 d.2)
              = (b.getPieceAt (Position.addOffset s d.1 d.2) = some JsVal.null)
            from rfl] at hemp
          rw [hget] at hemp
          cases hemp
        · rw [hget] at hq'
          injection hq' with hq'
          injection hq' with hq'
          exact hc' (hq' ▸ hc)
      · rw [if_pos (by simpa using hc), if_pos ⟨hob, Or.inr ⟨q, hget, hc⟩⟩]
  · rw [scanDir_succ_off hob,
      if_neg (fun hh => hob hh.1)]

/-- **C1** — the shared directional scan follows the specified steps: on a
well-formed board, for a piece the position scan locates, the squares
returned for a list of direction vectors are exactly, direction by direction,
those of the spec's description (off-board stops the direction; empty or
opposite-color squares are destinations; a same-color square is excluded;
any occupied square stops the direction; without `loop` each direction takes
exactly one step). -/
theorem gASID_cons_eq (b : Board) (self : Piece) (d : Int × Int)
    (rest : List (Int × Int)) (loop : Bool) :
    getAvaiableSquaresInDirections b self (d :: rest) loop =
      match Piece.getPosition b self with
      | none => none
      | some start =>
        match scanDir b self d loop 8 start with
        | none => none
        | some l =>
          (getAvaiableSquaresInDirections b self rest loop).map (l ++ ·) := rfl

theorem gASID_cons {b : Board} {self : Piece} {d : Int × Int}
    {rest : List (Int × Int)} {loop : Bool} {start : Position}
    (hpos : Piece.getPosition b self = some start) :
    getAvaiableSquaresInDirections b self (d :: rest) loop =
      match scanDir b self d loop 8 start with
      | none => none
      | some l =>
        (getAvaiableSquaresInDirections b self rest loop).map (l ++ ·) := by
  rw [gASID_cons_eq, hpos]

theorem scan_follows_spec (b : Board) (self : Piece)
    (dirs : List (Int × Int)) (loop : Bool) (start : Position)
    (hwf : WellFormed b) (hpos : Piece.getPosition b self = some start) :
    getAvaiableSquaresInDirections b self dirs loop
      = some (dirs.flatMap (fun d => specScanDir b self start d loop)) := by
  induction dirs with
  | nil => rfl
  | cons d rest ih =>
    rw [gASID_cons hpos]
    have hd : scanDir b self d loop 8 start
        = some (specScanDir b self start d loop) := by
      cases loop with
      | true =>
        rw [scanDir_eq_specWalk hwf self d 8 start]
        rfl
      | false =>
        rw [scanDir_false_eq_spec hwf self d 7 start]
        rfl
    rw [hd, ih]
    rfl

/-- Witness for C1: the white queenside rook on the initial board, whose
four directions' scans agree with the spec description. -/
theorem scan_follows_spec_instance :
    getAvaiableSquaresInDirections initialBoard
        { id := 17, kind := PieceKind.rook, color := Color.white }
        rookDirections true
      = some (rookDirections.flatMap (fun d =>
          specScanDir initialBoard
            { id := 17, kind := PieceKind.rook, color := Color.white }
            { row := 7, column := 0 } d true)) :=
  scan_follows_spec initialBoard
    { id := 17, kind := PieceKind.rook, color := Color.white }
    rookDirections true { row := 7, column := 0 } (by decide) (by decide)

/-! ## Pawn lemmas (C10, C8) -/

theorem isOnBoard_mk {r c : Int} (h1 : 0 ≤ r) (h2 : r ≤ 7) (h3 : 0 ≤ c)
    (h4 : c ≤ 7) : Position.isOnBoard { row := r, column := c } :=
  ⟨h1, h2, h3, h4⟩

theorem getPosition_onBoard {b : Board} {p : Piece} {pos : Position}
    (hwf : WellFormed b) (hpos : Piece.getPosition b p = some pos) :
    pos.isOnBoard := by
  obtain ⟨i, c, hp, hi, hc, -⟩ := getPosition_eq_some hpos
  have h8 : b.grid.length = 8 := hwf.1
  have hr : (b.grid.getD i []).length = 8 := wf_row_length hwf hi
  rw [hp]
  refine isOnBoard_mk (Int.natCast_nonneg i) ?_ (Int.natCast_nonneg c) ?_
  · exact_mod_cast (by omega : i ≤ 7)
  · exact_mod_cast (by omega : c ≤ 7)

theorem getPieceAt_row_some {b : Board} {s : Position}
    (h : 0 ≤ s.row ∧ s.row < (b.grid.length : Int)) :
    b.getPieceAt s = some (jsGetRow (b.grid.getD s.row.toNat []) s.column) := by
  unfold Board.getPieceAt
  rw [if_pos h]

theorem getPieceAt_row_none {b : Board} {s : Position}
    (h : ¬ (0 ≤ s.row ∧ s.row < (b.grid.length : Int))) :
    b.getPieceAt s = none := by
  unfold Board.getPieceAt
  rw [if_neg h]

theorem availableSquares_pawn_pos {b : Board} {p : Piece} {pos : Position}
    (hk : p.kind = PieceKind.pawn) (hpos : Piece.getPosition b p = some pos) :
    availableSquares b p = pawnAvailableSquares b p pos := by
  unfold availableSquares
  rw [hk, hpos]

theorem pawnAvail_fwd_none {b : Board} {self : Piece} {pos : Position}
    (h : b.getPieceAt (pos.addOffset (pawnDir self) 0) = none) :
    pawnAvailableSquares b self pos = none := by
  unfold pawnAvailableSquares
  rw [h]

theorem pawnAvail_fwd_some {b : Board} {self : Piece} {pos : Position}
    {v1 : JsVal}
    (h : b.getPieceAt (pos.addOffset (pawnDir self) 0) = some v1) :
    pawnAvailableSquares b self pos =
      match pawnForward b self pos v1 with
      | none => none
      | some fwds => pawnDiagonals b self pos fwds := by
  unfold pawnAvailableSquares
  rw [h]

theorem pawnAtStart_iff {self : Piece} {pos : Position} :
    pawnAtStart self pos = true ↔
      pos.row = (if self.color = Color.white then (6 : Int) else 1) := by
  unfold pawnAtStart
  cases hc : self.color <;> simp [hc]

theorem pawnDir_cases (self : Piece) :
    (self.color = Color.white ∧ pawnDir self = -1) ∨
      (self.color = Color.black ∧ pawnDir self = 1) := by
  unfold pawnDir
  cases hc : self.color
  · right
    exact ⟨rfl, by decide⟩
  · left
    exact ⟨rfl, by decide⟩

theorem capturable_piece {self : Piece} {v : JsVal}
    (h : capturable self v = true) :
    ∃ q, v = JsVal.piece q ∧ q.color ≠ self.color := by
  cases v with
  | undef => cases h
  | null => cases h
  | piece q => exact ⟨q, rfl, by simpa [capturable] using h⟩

theorem pawnForward_total {b : Board} {self : Piece} {pos : Position}
    (v1 : JsVal) (hwf : WellFormed b)
    (hfr : 0 ≤ pos.row + pawnDir self ∧ pos.row + pawnDir self ≤ 7)
    (hcol : 0 ≤ pos.column ∧ pos.column ≤ 7) :
    ∃ fwds, pawnForward b self pos v1 = some fwds
      ∧ ∀ s ∈ fwds, s.isOnBoard := by
  have h8 : b.grid.length = 8 := hwf.1
  unfold pawnForward
  by_cases h1 : v1 = JsVal.null
  · rw [if_pos h1]
    by_cases hst : pawnAtStart self pos = true
    · rw [if_pos hst]
      have hrow2 : 0 ≤ pos.row + 2 * pawnDir self
          ∧ pos.row + 2 * pawnDir self ≤ 7 := by
        rw [pawnAtStart_iff] at hst
        rcases pawnDir_cases self with ⟨hc, hd⟩ | ⟨hc, hd⟩ <;>
          (rw [hc] at hst; simp at hst; rw [hd]; omega)
      have hv2 := getPieceAt_row_some (b := b)
        (s := pos.addOffset (2 * pawnDir self) 0)
        (by show 0 ≤ pos.row + 2 * pawnDir self
              ∧ pos.row + 2 * pawnDir self < (b.grid.length : Int)
            rw [h8]; exact ⟨hrow2.1, by omega⟩)
      rw [hv2]
      refine ⟨_, rfl, ?_⟩
      intro s hs
      split at hs
      · simp only [List.mem_cons, List.not_mem_nil, or_false] at hs
        rcases hs with rfl | rfl
        · exact isOnBoard_mk hfr.1 hfr.2 (by omega) (by omega)
        · exact isOnBoard_mk hrow2.1 hrow2.2 (by omega) (by omega)
      · simp only [List.mem_cons, List.not_mem_nil, or_false] at hs
        subst hs
        exact isOnBoard_mk hfr.1 hfr.2 (by omega) (by omega)
    · rw [if_neg hst]
      refine ⟨_, rfl, ?_⟩
      intro s hs
      simp only [List.mem_cons, List.not_mem_nil, or_false] at hs
      subst hs
      exact isOnBoard_mk hfr.1 hfr.2 (by omega) (by omega)
  · rw [if_neg h1]
    exact ⟨[], rfl, by intro s hs; cases hs⟩

theorem pawnDiagonals_total {b : Board} {self : Piece} {pos : Position}
    {fwds : List Position} (hwf : WellFormed b)
    (hfr : 0 ≤ pos.row + pawnDir self ∧ pos.row + pawnDir self ≤ 7)
    (hmem : ∀ s ∈ fwds, s.isOnBoard) :
    ∃ l, pawnDiagonals b self pos fwds = some l
      ∧ ∀ s ∈ l, s.isOnBoard := by
  have h8 : b.grid.length = 8 := hwf.1
  unfold pawnDiagonals
  have hlv := getPieceAt_row_some (b := b)
    (s := pos.addOffset (pawnDir self) (-1))
    (by show 0 ≤ pos.row + pawnDir self
          ∧ pos.row + pawnDir self < (b.grid.length : Int)
        rw [h8]; exact ⟨hfr.1, by omega⟩)
  have hrv := getPieceAt_row_some (b := b)
    (s := pos.addOffset (pawnDir self) 1)
    (by show 0 ≤ pos.row + pawnDir self
          ∧ pos.row + pawnDir self < (b.grid.length : Int)
        rw [h8]; exact ⟨hfr.1, by omega⟩)
  rw [hlv, hrv]
  refine ⟨_, rfl, ?_⟩
  intro s hs
  rcases List.mem_append.mp hs with hs | hs
  · rcases List.mem_append.mp hs with hs | hs
    · exact hmem s hs
    · split at hs
      next hcap =>
        simp only [List.mem_cons, List.not_mem_nil, or_false] at hs
        subst hs
        obtain ⟨q, hq, -⟩ := capturable_piece hcap
        exact getPieceAt_some_onBoard hwf (hq ▸ hlv)
          (fun hh => JsVal.noConfusion hh)
      next => cases hs
  · split at hs
    next hcap =>
      simp only [List.mem_cons, List.not_mem_nil, or_false] at hs
      subst hs
      obtain ⟨q, hq, -⟩ := capturable_piece hcap
      exact getPieceAt_some_onBoard hwf (hq ▸ hrv)
        (fun hh => JsVal.noConfusion hh)
    next => cases hs

/-! ## C10: pawn totality away from the final rank, fault on it -/

/-- **C10** — for a pawn not on the final rank of its movement direction
(row ≥ 1 for white, row ≤ 6 for black), `availableSquares` completes without
error and every returned square is on the board (off-board diagonal columns
are silently excluded); for a pawn on its final rank (row 0 white, row 7
black), the unguarded forward lookup indexes a nonexistent grid row and the
operation faults instead of returning a result. -/
theorem pawn_row_safety (b : Board) (p : Piece) (pos : Position)
    (hwf : WellFormed b) (hk : p.kind = PieceKind.pawn)
    (hpos : Piece.getPosition b p = some pos) :
    ((p.color = Color.white → 1 ≤ pos.row) ∧
        (p.color = Color.black → pos.row ≤ 6) →
      ∃ l, availableSquares b p = some l ∧ ∀ s ∈ l, s.isOnBoard)
    ∧ ((p.color = Color.white ∧ pos.row = 0) ∨
        (p.color = Color.black ∧ pos.row = 7) →
      availableSquares b p = none) := by
  have h8 : b.grid.length = 8 := hwf.1
  obtain ⟨hr0, hr7, hc0, hc7⟩ := getPosition_onBoard hwf hpos
  rw [availableSquares_pawn_pos hk hpos]
  constructor
  · intro hnf
    have hfr : 0 ≤ pos.row + pawnDir p ∧ pos.row + pawnDir p ≤ 7 := by
      rcases pawnDir_cases p with ⟨hc, hd⟩ | ⟨hc, hd⟩
      · have := hnf.1 hc
        rw [hd]
        omega
      · have := hnf.2 hc
        rw [hd]
        omega
    obtain ⟨v1, hv1⟩ : ∃ v, b.getPieceAt (pos.addOffset (pawnDir p) 0)
        = some v :=
      ⟨_, getPieceAt_row_some
        (by show 0 ≤ pos.row + pawnDir p
              ∧ pos.row + pawnDir p < (b.grid.length : Int)
            rw [h8]; exact ⟨hfr.1, by omega⟩)⟩
    rw [pawnAvail_fwd_some hv1]
    obtain ⟨fwds, hfwds, hfmem⟩ :=
      pawnForward_total v1 hwf hfr ⟨hc0, hc7⟩
    rw [hfwds]
    exact pawnDiagonals_total hwf hfr hfmem
  · intro hfin
    apply pawnAvail_fwd_none
    apply getPieceAt_row_none
    rcases hfin with ⟨hw, hrow⟩ | ⟨hb, hrow⟩
    · have hd : pawnDir p = -1 := by
        unfold pawnDir
        rw [if_pos hw]
      show ¬ (0 ≤ pos.row + pawnDir p
        ∧ pos.row + pawnDir p < (b.grid.length : Int))
      rw [hd, hrow]
      omega
    · have hd : pawnDir p = 1 := by
        unfold pawnDir
        rw [if_neg (by rw [hb]; exact fun h => Color.noConfusion h)]
      show ¬ (0 ≤ pos.row + pawnDir p
        ∧ pos.row + pawnDir p < (b.grid.length : Int))
      rw [hd, hrow, h8]
      omega

/-- A board with a single white pawn already on row 0 (the final rank for
white), exhibiting the faulting forward lookup. -/
def pawnCornerBoard : Board :=
  { grid := (List.replicate 8 emptyRow).set 0
      (emptyRow.set 0
        (JsVal.piece { id := 99, kind := PieceKind.pawn, color := Color.white })) }

/-- Witness for C10: the white pawn on row 0 faults. -/
theorem pawn_row_safety_instance :
    availableSquares pawnCornerBoard
      { id := 99, kind := PieceKind.pawn, color := Color.white } = none :=
  (pawn_row_safety pawnCornerBoard
    { id := 99, kind := PieceKind.pawn, color := Color.white }
    { row := 0, column := 0 } (by decide) rfl (by decide)).2
    (Or.inl ⟨rfl, rfl⟩)

/-! ## C8: pawn double-step -/

theorem pawnForward_cases {b : Board} {self : Piece} {pos : Position}
    {v1 : JsVal} {fwds : List Position}
    (h : pawnForward b self pos v1 = some fwds) :
    (v1 = JsVal.null ∧ pawnAtStart self pos = true
      ∧ ∃ v2, b.getPieceAt (pos.addOffset (2 * pawnDir self) 0) = some v2
        ∧ fwds = (if v2 = JsVal.null
            then [pos.addOffset (pawnDir self) 0,
                  pos.addOffset (2 * pawnDir self) 0]
            else [pos.addOffset (pawnDir self) 0]))
    ∨ (v1 = JsVal.null ∧ pawnAtStart self pos = false
        ∧ fwds = [pos.addOffset (pawnDir self) 0])
    ∨ (v1 ≠ JsVal.null ∧ fwds = []) := by
  unfold pawnForward at h
  by_cases h1 : v1 = JsVal.null
  · rw [if_pos h1] at h
    by_cases hst : pawnAtStart self pos = true
    · rw [if_pos hst] at h
      rcases h2 : b.getPieceAt (pos.addOffset (2 * pawnDir self) 0)
          with _ | v2
      · rw [h2] at h
        simp at h
      · rw [h2] at h
        simp only [Option.some.injEq] at h
        exact Or.inl ⟨h1, hst, v2, rfl, h.symm⟩
    · rw [if_neg hst] at h
      simp only [Option.some.injEq] at h
      exact Or.inr (Or.inl ⟨h1, by simpa using hst, h.symm⟩)
  · rw [if_neg h1] at h
    simp only [Option.some.injEq] at h
    exact Or.inr (Or.inr ⟨h1, h.symm⟩)

theorem pawnAvail_some_parts {b : Board} {self : Piece} {pos : Position}
    {l : List Position}
    (h : pawnAvailableSquares b self pos = some l) :
    ∃ v1 fwds lv rv,
      b.getPieceAt (pos.addOffset (pawnDir self) 0) = some v1
      ∧ pawnForward b self pos v1 = some fwds
      ∧ b.getPieceAt (pos.addOffset (pawnDir self) (-1)) = some lv
      ∧ b.getPieceAt (pos.addOffset (pawnDir self) 1) = some rv
      ∧ l = fwds
          ++ (if capturable self lv then [pos.addOffset (pawnDir self) (-1)]
              else [])
          ++ (if capturable self rv then [pos.addOffset (pawnDir self) 1]
              else []) := by
  unfold pawnAvailableSquares at h
  rcases h1 : b.getPieceAt (pos.addOffset (pawnDir self) 0) with _ | v1
  · rw [h1] at h
    simp at h
  · rw [h1] at h
    change (match pawnForward b self pos v1 with
      | none => none
      | some fwds => pawnDiagonals b self pos fwds) = some l at h
    rcases h2 : pawnForward b self pos v1 with _ | fwds
    · rw [h2] at h
      simp at h
    · rw [h2] at h
      change pawnDiagonals b self pos fwds = some l at h
      unfold pawnDiagonals at h
      rcases h3 : b.getPieceAt (pos.addOffset (pawnDir self) (-1))
          with _ | lv
      · rw [h3] at h
        simp at h
      · rw [h3] at h
        change (match b.getPieceAt (pos.addOffset (pawnDir self) 1) with
          | none => none
          | some rv => some (fwds
            ++ (if capturable self lv
                then [pos.addOffset (pawnDir self) (-1)] else [])
            ++ (if capturable self rv
                then [pos.addOffset (pawnDir self) 1] else []))) = some l at h
        rcases h4 : b.getPieceAt (pos.addOffset (pawnDir self) 1)
            with _ | rv
        · rw [h4] at h
          simp at h
        · rw [h4] at h
          simp only [Option.some.injEq] at h
          exact ⟨v1, fwds, lv, rv, rfl, h2, rfl, rfl, h.symm⟩

theorem col_beq_self (pos : Position) (d : Int) :
    ((pos.addOffset d 0).column == pos.column) = true := by
  show ((pos.column + 0) == pos.column) = true
  simp

theorem col_beq_off (pos : Position) (d e : Int) (he : e ≠ 0) :
    ((pos.addOffset d e).column == pos.column) = false := by
  show ((pos.column + e) == pos.column) = false
  rw [beq_eq_false_iff_ne]
  omega

theorem filter_cap_nil (pos : Position) (d e : Int) (he : e ≠ 0)
    (cond : Prop) [Decidable cond] :
    ((if cond then [pos.addOffset d e] else []).filter
      (fun s => s.column == pos.column)) = [] := by
  split
  · simp [List.filter_cons, col_beq_off pos d e he]
  · rfl

theorem pawnDir_ne_zero (self : Piece) : pawnDir self ≠ 0 := by
  rcases pawnDir_cases self with ⟨-, hd⟩ | ⟨-, hd⟩ <;> rw [hd] <;> decide

theorem addOffset_ne_col (pos : Position) (d d' e : Int) (he : e ≠ 0) :
    pos.addOffset d 0 ≠ pos.addOffset d' e := by
  intro h
  have hcol : pos.column + 0 = pos.column + e := congrArg Position.column h
  omega

theorem addOffset_two_ne (pos : Position) (d : Int) (hd : d ≠ 0) :
    pos.addOffset (2 * d) 0 ≠ pos.addOffset d 0 := by
  intro h
  have hrow : pos.row + 2 * d = pos.row + d := congrArg Position.row h
  omega

/-- **C8** — pawn double-step: with the pawn on its starting row (6 for
white, 1 for black) and both squares ahead empty, the result contains
exactly the two forward destinations (plus diagonal captures, which have a
different column); away from the starting row at most one forward
destination is produced; and the two-square advance appears only from the
starting row with both the intervening and the destination squares empty. -/
theorem pawn_double_step (b : Board) (p : Piece) (pos : Position)
    (l : List Position) (hk : p.kind = PieceKind.pawn)
    (hpos : Piece.getPosition b p = some pos)
    (hl : availableSquares b p = some l) :
    ((pos.row = (if p.color = Color.white then (6 : Int) else 1)
        ∧ b.getPieceAt (pos.addOffset (pawnDir p) 0) = some JsVal.null
        ∧ b.getPieceAt (pos.addOffset (2 * pawnDir p) 0) = some JsVal.null) →
      l.filter (fun s => s.column == pos.column)
        = [pos.addOffset (pawnDir p) 0, pos.addOffset (2 * pawnDir p) 0])
    ∧ (pos.row ≠ (if p.color = Color.white then (6 : Int) else 1) →
        (l.filter (fun s => s.column == pos.column)).length ≤ 1)
    ∧ (pos.addOffset (2 * pawnDir p) 0 ∈ l →
        pos.row = (if p.color = Color.white then (6 : Int) else 1)
        ∧ b.getPieceAt (pos.addOffset (pawnDir p) 0) = some JsVal.null
        ∧ b.getPieceAt (pos.addOffset (2 * pawnDir p) 0) = some JsVal.null) := by
  rw [availableSquares_pawn_pos hk hpos] at hl
  obtain ⟨v1, fwds, lv, rv, hv1, hfwd, hlv, hrv, hldef⟩ :=
    pawnAvail_some_parts hl
  subst hldef
  have hfl : ∀ ll : List Position,
      ((ll ++ (if capturable p lv then [pos.addOffset (pawnDir p) (-1)]
          else [])
        ++ (if capturable p rv then [pos.addOffset (pawnDir p) 1]
          else [])).filter (fun s => s.column == pos.column))
        = ll.filter (fun s => s.column == pos.column) := by
    intro ll
    rw [List.filter_append, List.filter_append,
      filter_cap_nil pos _ _ (by decide), filter_cap_nil pos _ _ (by decide),
      List.append_nil, List.append_nil]
  refine ⟨?_, ?_, ?_⟩
  · rintro ⟨hrow, hn1, hn2⟩
    have hst : pawnAtStart p pos = true := pawnAtStart_iff.mpr hrow
    rcases pawnForward_cases hfwd with ⟨-, -, v2, hv2, hfw⟩ |
        ⟨-, hst', -⟩ | ⟨hne, -⟩
    · have hv2n : v2 = JsVal.null := Option.some.inj (hv2.symm.trans hn2)
      subst hv2n
      simp only [if_pos rfl] at hfw
      subst hfw
      rw [hfl]
      simp [List.filter_cons, col_beq_self]
    · rw [hst] at hst'
      cases hst'
    · exact absurd (Option.some.inj (hv1.symm.trans hn1)) hne
  · intro hrow
    have hst : pawnAtStart p pos = false := by
      rcases hb : pawnAtStart p pos
      · rfl
      · exact absurd (pawnAtStart_iff.mp hb) hrow
    rw [hfl]
    rcases pawnForward_cases hfwd with ⟨-, hst', -⟩ | ⟨-, -, hfw⟩ | ⟨-, hfw⟩
    · rw [hst] at hst'
      cases hst'
    · subst hfw
      simp [List.filter_cons, col_beq_self]
    · subst hfw
      simp
  · intro hmem
    have hf2 : pos.addOffset (2 * pawnDir p) 0 ∈ fwds := by
      rcases List.mem_append.mp hmem with hm | hm
      · rcases List.mem_append.mp hm with hm | hm
        · exact hm
        · exfalso
          revert hm
          split
          · intro hm
            simp only [List.mem_cons, List.not_mem_nil, or_false] at hm
            exact addOffset_ne_col pos (2 * pawnDir p) (pawnDir p) (-1)
              (by decide) hm
          · intro hm
            cases hm
      · exfalso
        revert hm
        split
        · intro hm
          simp only [List.mem_cons, List.not_mem_nil, or_false] at hm
          exact addOffset_ne_col pos (2 * pawnDir p) (pawnDir p) 1
            (by decide) hm
        · intro hm
          cases hm
    rcases pawnForward_cases hfwd with ⟨hv1n, hst, v2, hv2, hfw⟩ |
        ⟨-, -, hfw⟩ | ⟨-, hfw⟩
    · subst hfw
      by_cases hv2n : v2 = JsVal.null
      · refine ⟨pawnAtStart_iff.mp hst, ?_, ?_⟩
        · rw [hv1, hv1n]
        · rw [hv2, hv2n]
      · rw [if_neg hv2n] at hf2
        simp only [List.mem_cons, List.not_mem_nil, or_false] at hf2
        exact absurd hf2 (addOffset_two_ne pos (pawnDir p) (pawnDir_ne_zero p))
    · subst hfw
      simp only [List.mem_cons, List.not_mem_nil, or_false] at hf2
      exact absurd hf2 (addOffset_two_ne pos (pawnDir p) (pawnDir_ne_zero p))
    · subst hfw
      cases hf2

/-- Witness for C8: the black pawn on a7 of the initial board, whose result
is exactly the two forward squares. -/
theorem pawn_double_step_instance :
    ([{ row := 2, column := 0 }, { row := 3, column := 0 }] :
        List Position).filter
        (fun s => s.column == ({ row := 1, column := 0 } : Position).column)
      = [({ row := 1, column := 0 } : Position).addOffset
            (pawnDir { id := 0, kind := PieceKind.pawn, color := Color.black })
            0,
         ({ row := 1, column := 0 } : Position).addOffset
            (2 * pawnDir
              { id := 0, kind := PieceKind.pawn, color := Color.black }) 0] :=
  (pawn_double_step initialBoard
    { id := 0, kind := PieceKind.pawn, color := Color.black }
    { row := 1, column := 0 }
    [{ row := 2, column := 0 }, { row := 3, column := 0 }]
    rfl (by decide) (by decide)).1 (by decide)

/-! ## C2: the move-commit invariant -/

theorem addOffset_row_k1 (s : Position) (d1 d2 : Int) :
    (s.addOffset d1 d2).row = s.row + ((1 : Nat) : Int) * d1 := by
  show s.row + d1 = s.row + ((1 : Nat) : Int) * d1
  push_cast
  ring

theorem addOffset_col_k1 (s : Position) (d1 d2 : Int) :
    (s.addOffset d1 d2).column = s.column + ((1 : Nat) : Int) * d2 := by
  show s.column + d2 = s.column + ((1 : Nat) : Int) * d2
  push_cast
  ring

theorem scanDir_mem {b : Board} {self : Piece} {d : Int × Int} {loop : Bool} :
    ∀ {fuel : Nat} {s : Position} {l : List Position},
      scanDir b self d loop fuel s = some l → ∀ x ∈ l,
        x.isOnBoard ∧ ∃ k : Nat, 1 ≤ k
          ∧ x.row = s.row + k * d.1 ∧ x.column = s.column + k * d.2 := by
  intro fuel
  induction fuel with
  | zero =>
    intro s l h x hx
    injection h with h
    subst h
    cases hx
  | succ f ih =>
    intro s l h x hx
    rw [scanDir_succ] at h
    by_cases hob : (Position.addOffset s d.1 d.2).isOnBoard
    · rw [if_pos hob] at h
      rcases hget : b.getPieceAt (Position.addOffset s d.1 d.2) with _ | v
      · rw [hget] at h
        cases h
      · rw [hget] at h
        cases v with
        | undef =>
          simp only [Option.some.injEq] at h
          subst h
          simp only [List.mem_cons, List.not_mem_nil, or_false] at hx
          subst hx
          exact ⟨hob, 1, le_refl 1, addOffset_row_k1 s d.1 d.2,
              addOffset_col_k1 s d.1 d.2⟩
        | null =>
          cases loop with
          | false =>
            change (some [Position.addOffset s d.1 d.2]
              : Option (List Position)) = some l at h
            simp only [Option.some.injEq] at h
            subst h
            simp only [List.mem_cons, List.not_mem_nil, or_false] at hx
            subst hx
            exact ⟨hob, 1, le_refl 1, addOffset_row_k1 s d.1 d.2,
              addOffset_col_k1 s d.1 d.2⟩
          | true =>
            change (scanDir b self d true f (Position.addOffset s d.1 d.2)).map
              (Position.addOffset s d.1 d.2 :: ·) = some l at h
            obtain ⟨l', hl', rfl⟩ := Option.map_eq_some'.mp h
            simp only [List.mem_cons] at hx
            rcases hx with rfl | hx
            · exact ⟨hob, 1, le_refl 1, addOffset_row_k1 s d.1 d.2,
              addOffset_col_k1 s d.1 d.2⟩
            · obtain ⟨hxob, k, hk1, hr, hc⟩ := ih hl' x hx
              refine ⟨hxob, k + 1, by omega, ?_, ?_⟩
              · rw [hr]
                show s.row + d.1 + (k : Int) * d.1 = s.row + ((k : Nat) + 1 : Nat) * d.1
                push_cast
                ring
              · rw [hc]
                show s.column + d.2 + (k : Int) * d.2
                  = s.column + ((k : Nat) + 1 : Nat) * d.2
                push_cast
                ring
        | piece q =>
          simp only [Option.some.injEq] at h
          subst h
          split at hx
          · simp only [List.mem_cons, List.not_mem_nil, or_false] at hx
            subst hx
            exact ⟨hob, 1, le_refl 1, addOffset_row_k1 s d.1 d.2,
              addOffset_col_k1 s d.1 d.2⟩
          · cases hx
    · rw [if_neg hob] at h
      injection h with h
      subst h
      cases hx

theorem gASID_mem {b : Board} {self : Piece} {dirs : List (Int × Int)}
    {loop : Bool} {A : Position} {L : List Position}
    (hA : Piece.getPosition b self = some A)
    (h : getAvaiableSquaresInDirections b self dirs loop = some L)
    {x : Position} (hx : x ∈ L) :
    ∃ d ∈ dirs, ∃ ld, scanDir b self d loop 8 A = some ld ∧ x ∈ ld := by
  induction dirs generalizing L with
  | nil =>
    injection h with h
    subst h
    cases hx
  | cons d rest ih =>
    rw [gASID_cons hA] at h
    rcases hsd : scanDir b self d loop 8 A with _ | l1
    · rw [hsd] at h
      cases h
    · rw [hsd] at h
      rcases hrest : getAvaiableSquaresInDirections b self rest loop
          with _ | L2
      · rw [hrest] at h
        cases h
      · rw [hrest] at h
        change (some (l1 ++ L2) : Option (List Position)) = some L at h
        simp only [Option.some.injEq] at h
        subst h
        rcases List.mem_append.mp hx with hx | hx
        · exact ⟨d, List.mem_cons_self d rest, l1, hsd, hx⟩
        · obtain ⟨d', hd', ld, hld, hxld⟩ := ih hrest hx
          exact ⟨d', List.mem_cons_of_mem d hd', ld, hld, hxld⟩

theorem gASID_mem_good {b : Board} {self : Piece} {dirs : List (Int × Int)}
    {loop : Bool} {A : Position} {l : List Position}
    (hA : Piece.getPosition b self = some A)
    (hd : ∀ d ∈ dirs, d.1 ≠ 0 ∨ d.2 ≠ 0)
    (h : getAvaiableSquaresInDirections b self dirs loop = some l)
    {B : Position} (hB : B ∈ l) : B.isOnBoard ∧ B ≠ A := by
  obtain ⟨d, hdm, ld, hld, hBld⟩ := gASID_mem hA h hB
  obtain ⟨hob, k, hk1, hr, hc⟩ := scanDir_mem hld B hBld
  refine ⟨hob, fun he => ?_⟩
  subst he
  rcases hd d hdm with h1 | h1
  · have hz : (k : Int) * d.1 = 0 := by omega
    rcases mul_eq_zero.mp hz with h2 | h2
    · have : k = 0 := by exact_mod_cast h2
      omega
    · exact h1 h2
  · have hz : (k : Int) * d.2 = 0 := by omega
    rcases mul_eq_zero.mp hz with h2 | h2
    · have : k = 0 := by exact_mod_cast h2
      omega
    · exact h1 h2

theorem pawnAvail_mem {b : Board} {self : Piece} {pos : Position}
    {l : List Position} (hwf : WellFormed b)
    (h : pawnAvailableSquares b self pos = some l) {x : Position}
    (hx : x ∈ l) : x.isOnBoard ∧ x.row ≠ pos.row := by
  obtain ⟨v1, fwds, lv, rv, hv1, hfwd, hlv, hrv, hldef⟩ :=
    pawnAvail_some_parts h
  subst hldef
  have hdz := pawnDir_ne_zero self
  rcases List.mem_append.mp hx with hm0 | hmR
  · rcases List.mem_append.mp hm0 with hmf | hmL
    · rcases pawnForward_cases hfwd with ⟨hv1n, -, v2, hv2, hfw⟩ |
          ⟨hv1n, -, hfw⟩ | ⟨-, hfw⟩
      · subst hfw
        subst hv1n
        have hf1 : (pos.addOffset (pawnDir self) 0).isOnBoard :=
          getPieceAt_some_onBoard hwf hv1 (by intro hh; cases hh)
        split at hmf
        next hv2n =>
          subst hv2n
          simp only [List.mem_cons, List.not_mem_nil, or_false] at hmf
          rcases hmf with hmf | hmf
          · rw [hmf]
            exact ⟨hf1, by show pos.row + pawnDir self ≠ pos.row; omega⟩
          · rw [hmf]
            refine ⟨getPieceAt_some_onBoard hwf hv2
              (by intro hh; cases hh), ?_⟩
            show pos.row + 2 * pawnDir self ≠ pos.row
            omega
        next =>
          simp only [List.mem_cons, List.not_mem_nil, or_false] at hmf
          rw [hmf]
          exact ⟨hf1, by show pos.row + pawnDir self ≠ pos.row; omega⟩
      · subst hfw
        subst hv1n
        simp only [List.mem_cons, List.not_mem_nil, or_false] at hmf
        rw [hmf]
        exact ⟨getPieceAt_some_onBoard hwf hv1 (by intro hh; cases hh),
          by show pos.row + pawnDir self ≠ pos.row; omega⟩
      · subst hfw
        cases hmf
    · split at hmL
      next hcap =>
        simp only [List.mem_cons, List.not_mem_nil, or_false] at hmL
        rw [hmL]
        obtain ⟨q, hq, -⟩ := capturable_piece hcap
        refine ⟨getPieceAt_some_onBoard hwf (hq ▸ hlv)
          (by intro hh; cases hh), ?_⟩
        show pos.row + pawnDir self ≠ pos.row
        omega
      next => cases hmL
  · split at hmR
    next hcap =>
      simp only [List.mem_cons, List.not_mem_nil, or_false] at hmR
      rw [hmR]
      obtain ⟨q, hq, -⟩ := capturable_piece hcap
      refine ⟨getPieceAt_some_onBoard hwf (hq ▸ hrv)
        (by intro hh; cases hh), ?_⟩
      show pos.row + pawnDir self ≠ pos.row
      omega
    next => cases hmR

/-- Every destination `availableSquares` produces (for any piece kind) is an
on-board square different from the piece's own position. -/
theorem availableSquares_mem {b : Board} {p : Piece} {A : Position}
    {l : List Position} (hwf : WellFormed b)
    (hA : Piece.getPosition b p = some A)
    (hl : availableSquares b p = some l) {B : Position} (hB : B ∈ l) :
    B.isOnBoard ∧ B ≠ A := by
  rcases hk : p.kind
  case pawn =>
    rw [availableSquares_pawn_pos hk hA] at hl
    obtain ⟨hob, hrow⟩ := pawnAvail_mem hwf hl hB
    exact ⟨hob, fun he => hrow (congrArg Position.row he)⟩
  all_goals
    unfold availableSquares at hl
  case rook =>
    rw [hk] at hl
    exact gASID_mem_good hA (by decide) hl hB
  case knight =>
    rw [hk] at hl
    exact gASID_mem_good hA (by decide) hl hB
  case bishop =>
    rw [hk] at hl
    exact gASID_mem_good hA (by decide) hl hB
  case queen =>
    rw [hk] at hl
    exact gASID_mem_good hA (by decide) hl hB
  case king =>
    rw [hk] at hl
    exact gASID_mem_good hA (by decide) hl hB

theorem getD_set_self {α : Type} (l : List α) (n : Nat) (a d : α)
    (h : n < l.length) : (l.set n a).getD n d = a := by
  rw [List.getD_eq_getElem?_getD, List.getElem?_set_self h]
  rfl

theorem getD_set_ne {α : Type} (l : List α) {n m : Nat} (a d : α)
    (h : n ≠ m) : (l.set n a).getD m d = l.getD m d := by
  rw [List.getD_eq_getElem?_getD, List.getElem?_set_ne h,
    ← List.getD_eq_getElem?_getD]

theorem jsGetRow_setRow_ne (l : List JsVal) {i j : Int} (v : JsVal)
    (hij : j ≠ i) (hi : 0 ≤ i) (hilen : i.toNat < l.length) :
    jsGetRow (setRow l i v) j = jsGetRow l j := by
  unfold setRow jsGetRow
  rw [if_neg (by omega : ¬ i < 0), if_pos hilen]
  by_cases hj : 0 ≤ j ∧ j < (l.length : Int)
  · rw [if_pos (by rw [List.length_set]; exact hj), if_pos hj]
    exact getD_set_ne _ _ _ (by omega)
  · rw [if_neg (by rw [List.length_set]; exact hj), if_neg hj]

theorem cellAt_setCell_same (g : List (List JsVal)) {r c : Int} (v : JsVal)
    (hr : 0 ≤ r ∧ r < (g.length : Int))
    (hc : 0 ≤ c ∧ c < ((g.getD r.toNat []).length : Int)) :
    cellAt (setCell g r c v) r c = v := by
  unfold setCell
  rw [if_pos hr]
  unfold cellAt
  rw [if_pos (by rw [List.length_set]; exact hr)]
  rw [getD_set_self _ _ _ _ (by omega)]
  unfold setRow jsGetRow
  rw [if_neg (by omega : ¬ c < 0),
    if_pos (by omega : c.toNat < (g.getD r.toNat []).length)]
  rw [if_pos (by rw [List.length_set]; exact hc)]
  exact getD_set_self _ _ _ _ (by omega)

theorem cellAt_setCell_ne (g : List (List JsVal)) {r c r' c' : Int}
    (v : JsVal) (hne : r' ≠ r ∨ c' ≠ c)
    (hr : 0 ≤ r ∧ r < (g.length : Int)) (hc : 0 ≤ c)
    (hclen : c.toNat < (g.getD r.toNat []).length)
    (hr' : 0 ≤ r' ∧ r' < (g.length : Int)) :
    cellAt (setCell g r c v) r' c' = cellAt g r' c' := by
  unfold setCell
  rw [if_pos hr]
  unfold cellAt
  rw [if_pos (by rw [List.length_set]; exact hr'), if_pos hr']
  by_cases hrr : r' = r
  · subst hrr
    have hcc : c' ≠ c := by
      rcases hne with hne | hne
      · exact absurd rfl hne
      · exact hne
    rw [getD_set_self _ _ _ _ (by omega)]
    exact jsGetRow_setRow_ne _ _ hcc hc hclen
  · rw [getD_set_ne _ _ _ (fun he => hrr (by omega))]

theorem wf_setCell {b : Board} (hwf : WellFormed b) {r c : Int} {v : JsVal}
    (hv : v ≠ JsVal.undef) (hc : 0 ≤ c ∧ c < 8) :
    WellFormed { grid := setCell b.grid r c v } := by
  obtain ⟨h8, hrows⟩ := hwf
  constructor
  · rw [length_setCell]
    exact h8
  · intro row hrow
    show row.length = 8 ∧ ∀ v' ∈ row, v' ≠ JsVal.undef
    unfold setCell at hrow
    split at hrow
    next hrr =>
      rcases List.mem_or_eq_of_mem_set hrow with hrow | rfl
      · exact hrows row hrow
      · have hold := hrows _ (getD_mem (n := r.toNat) (by omega) [])
        unfold setRow
        rw [if_neg (by omega : ¬ c < 0),
          if_pos (by rw [hold.1]; omega)]
        constructor
        · rw [List.length_set]
          exact hold.1
        · intro x hx
          rcases List.mem_or_eq_of_mem_set hx with hx | rfl
          · exact hold.2 x hx
          · exact hv
    next => exact hrows row hrow

/-- **C2** — move-commit invariant: for a piece the board locates at `A` and
any destination `B` among its available squares, `movePiece` completes, and
afterwards the destination cell holds the piece and the origin cell is
empty. -/
theorem move_commit_invariant (b : Board) (p : Piece) (A B : Position)
    (l : List Position) (hwf : WellFormed b)
    (hA : Piece.getPosition b p = some A)
    (hl : availableSquares b p = some l) (hB : B ∈ l) :
    ∃ b', b.movePiece p B = MoveResult.ok b'
      ∧ b'.getPieceAt B = some (JsVal.piece p)
      ∧ b'.getPieceAt A = some JsVal.null := by
  obtain ⟨hBob, hBA⟩ := availableSquares_mem hwf hA hl hB
  have hAob := getPosition_onBoard hwf hA
  obtain ⟨hB1, hB2, hB3, hB4⟩ := hBob
  obtain ⟨hA1, hA2, hA3, hA4⟩ := hAob
  have hBob : B.isOnBoard := ⟨hB1, hB2, hB3, hB4⟩
  have hAob : A.isOnBoard := ⟨hA1, hA2, hA3, hA4⟩
  have h8 : b.grid.length = 8 := hwf.1
  have hrowA : (b.grid.getD A.row.toNat []).length = 8 :=
    wf_row_length hwf (by omega)
  have hwf1 : WellFormed { grid := setCell b.grid A.row A.column JsVal.null } :=
    wf_setCell hwf (by intro hh; cases hh)
      ⟨hA3, by omega⟩
  have h81 : (setCell b.grid A.row A.column JsVal.null).length = 8 := hwf1.1
  have hrowB1 : ((setCell b.grid A.row A.column JsVal.null).getD
      B.row.toNat []).length = 8 :=
    wf_row_length (b := { grid := setCell b.grid A.row A.column JsVal.null })
      hwf1 (by
        show B.row.toNat < (setCell b.grid A.row A.column JsVal.null).length
        omega)
  have hwf2 : WellFormed
      { grid := setCell (setCell b.grid A.row A.column JsVal.null)
          B.row B.column (JsVal.piece p) } :=
    wf_setCell (b := { grid := setCell b.grid A.row A.column JsVal.null })
      hwf1 (by intro hh; cases hh)
      ⟨hB3, by omega⟩
  have hcomp : B.row ≠ A.row ∨ B.column ≠ A.column := by
    by_contra hcon
    push_neg at hcon
    refine hBA ?_
    cases A
    cases B
    simp only [Position.mk.injEq]
    exact ⟨hcon.1, hcon.2⟩
  refine ⟨Board.mk (setCell (setCell b.grid A.row A.column JsVal.null)
      B.row B.column (JsVal.piece p)), ?_, ?_, ?_⟩
  · rw [movePiece_of_getPosition_some hA]
    rw [if_pos (by
      rw [length_setCell, h8]
      exact ⟨hB1, by omega⟩)]
  · rw [(getPieceAt_wf hwf2 hBob).1]
    congr 1
    exact cellAt_setCell_same _ _
      (by rw [h81]; exact ⟨hB1, by omega⟩)
      (by rw [hrowB1]; exact ⟨hB3, by omega⟩)
  · rw [(getPieceAt_wf hwf2 hAob).1]
    show some _ = _
    congr 1
    rw [cellAt_setCell_ne _ _
      (by rcases hcomp with hh | hh
          · exact Or.inl (fun he => hh he.symm)
          · exact Or.inr (fun he => hh he.symm))
      (by rw [h81]; exact ⟨hB1, by omega⟩)
      hB3
      (by rw [hrowB1]; omega)
      (by rw [h81]; exact ⟨hA1, by omega⟩)]
    exact cellAt_setCell_same _ _
      (by rw [h8]; exact ⟨hA1, by omega⟩)
      (by rw [hrowA]; exact ⟨hA3, by omega⟩)

/-- Witness for C2: moving the white queenside knight from b1 to the empty
square a3 on the initial board. -/
theorem move_commit_invariant_instance :
    ∃ b', Board.movePiece initialBoard
        { id := 19, kind := PieceKind.knight, color := Color.white }
        { row := 5, column := 0 } = MoveResult.ok b'
      ∧ b'.getPieceAt { row := 5, column := 0 }
          = some (JsVal.piece
            { id := 19, kind := PieceKind.knight, color := Color.white })
      ∧ b'.getPieceAt { row := 7, column := 1 } = some JsVal.null :=
  move_commit_invariant initialBoard
    { id := 19, kind := PieceKind.knight, color := Color.white }
    { row := 7, column := 1 } { row := 5, column := 0 }
    [{ row := 5, column := 2 }, { row := 5, column := 0 }]
    (by decide) (by decide) (by decide) (by decide)

end Chess
